import Mathlib

/-!
glgine: hierarchical transforms, rendering traces and ownership

A shallow embedding of `src/complexrenderable.cpp`.

* Scalars are taken from a commutative ring `R` (exact arithmetic); `cos`, `sin`
  and `inversesqrt` of the C++ maths library are parameters (`ScalarFns`).
* `glm::mat4` is `Matrix (Fin 4) (Fin 4) R`, entry `m i j` being row `i`, column `j`
  (glm writes the same entry `m[j][i]`).  `glm::mat4(1.0f)` is `1`, `operator*` is
  the matrix product.
* Pointers are `Option Nat` (`none` is `nullptr`); objects live in a `Heap`.
* Recursion along parent pointers, through destructors and through nested render calls
  is driven by fuel; running out of fuel and dereferencing an invalid pointer are distinct
  faults.  `hwtHelperTotal` is the parent-chain walk as a total function over a forest.
* A render method returns the trace of pipeline commands it issues; `drawStates` replays a
  trace and reports the uniforms in effect at each draw.
-/

namespace Glgine

set_option linter.unusedSectionVars false

/-! ## glm -/

/-- The type `glm::mat4`. -/
abbrev Mat4 (R : Type) := Matrix (Fin 4) (Fin 4) R

/-- The type `glm::vec3`. -/
structure Vec3 (R : Type) where
  x : R
  y : R
  z : R
deriving DecidableEq, Repr

/-- The scalar functions of the C++ maths library used by `glm::rotate`. -/
structure ScalarFns (R : Type) where
  cos : R → R
  sin : R → R
  inversesqrt : R → R

section
variable {R : Type} [CommRing R]

/-- The call `glm::vec3(s)`: all three components equal to `s`. -/
def Vec3.splat (s : R) : Vec3 R := ⟨s, s, s⟩

/-- Component-wise sum, `operator+` of `glm::vec3`. -/
def Vec3.add (a b : Vec3 R) : Vec3 R := ⟨a.x + b.x, a.y + b.y, a.z + b.z⟩

/-- Scalar multiple of a vector. -/
def Vec3.smul (k : R) (a : Vec3 R) : Vec3 R := ⟨k * a.x, k * a.y, k * a.z⟩

/-- The function `glm::dot` on `vec3`. -/
def Vec3.dot (a b : Vec3 R) : R := a.x * b.x + a.y * b.y + a.z * b.z

/-- The function `glm::normalize`: `v * inversesqrt(dot(v, v))`. -/
def normalize (M : ScalarFns R) (v : Vec3 R) : Vec3 R :=
  ⟨v.x * M.inversesqrt (v.dot v), v.y * M.inversesqrt (v.dot v), v.z * M.inversesqrt (v.dot v)⟩

/-- The function `glm::translate(m, v)`: columns 0..2 are those of `m`, column 3 is
`m[0] * v[0] + m[1] * v[1] + m[2] * v[2] + m[3]`. -/
def translate (m : Mat4 R) (v : Vec3 R) : Mat4 R :=
  Matrix.of fun i j =>
    if j = 3 then m i 0 * v.x + m i 1 * v.y + m i 2 * v.z + m i 3 else m i j

/-- The function `glm::scale(m, v)`: column `k < 3` is `m[k] * v[k]`, column 3 is `m[3]`. -/
def scale (m : Mat4 R) (v : Vec3 R) : Mat4 R :=
  Matrix.of fun i j =>
    if j = 0 then m i 0 * v.x
    else if j = 1 then m i 1 * v.y
    else if j = 2 then m i 2 * v.z
    else m i 3

/-- The 3x3 block `Rotate` built inside `glm::rotate`; `rotateBlock M a v k j` is glm's
`Rotate[j][k]` (row `k`, column `j`). -/
def rotateBlock (M : ScalarFns R) (angle : R) (v : Vec3 R) : Fin 3 → Fin 3 → R :=
  let c := M.cos angle
  let s := M.sin angle
  let axis := normalize M v
  let temp : Vec3 R := Vec3.smul (1 - c) axis
  fun k j =>
    match j, k with
    | 0, 0 => c + temp.x * axis.x
    | 0, 1 => temp.x * axis.y + s * axis.z
    | 0, 2 => temp.x * axis.z - s * axis.y
    | 1, 0 => temp.y * axis.x - s * axis.z
    | 1, 1 => c + temp.y * axis.y
    | 1, 2 => temp.y * axis.z + s * axis.x
    | 2, 0 => temp.z * axis.x + s * axis.y
    | 2, 1 => temp.z * axis.y - s * axis.x
    | 2, 2 => c + temp.z * axis.z

/-- The function `glm::rotate(m, angle, v)`: column `j < 3` is
`m[0] * Rotate[j][0] + m[1] * Rotate[j][1] + m[2] * Rotate[j][2]`, column 3 is `m[3]`. -/
def rotate (M : ScalarFns R) (m : Mat4 R) (angle : R) (v : Vec3 R) : Mat4 R :=
  let rot := rotateBlock M angle v
  Matrix.of fun i j =>
    if j = 0 then m i 0 * rot 0 0 + m i 1 * rot 1 0 + m i 2 * rot 2 0
    else if j = 1 then m i 0 * rot 0 1 + m i 1 * rot 1 1 + m i 2 * rot 2 1
    else if j = 2 then m i 0 * rot 0 2 + m i 1 * rot 1 2 + m i 2 * rot 2 2
    else m i 3

/-- The translation column of a matrix: rows 0..2 of column 3. -/
def translationColumn (m : Mat4 R) : Vec3 R := ⟨m 0 3, m 1 3, m 2 3⟩

/-! ## ComplexRenderable -/

/-- A pointer: `none` is `nullptr`, `some a` is the address `a`. -/
abbrev Ptr := Option Nat

/-- Modelled from the spec: the in-class initial value of the member `textured`, which the
constructor's initialiser list does not mention; `complexrenderable.hpp` is not part of the
sources, the spec says "default untextured". -/
def texturedDefault : Bool := false

/-- The data members of `ComplexRenderable`. -/
structure ComplexRenderable (R : Type) where
  position : Vec3 R
  angles : Vec3 R
  scales : Vec3 R
  parent : Ptr
  texture : Nat
  textured : Bool

namespace ComplexRenderable

/-- The constructor `ComplexRenderable::ComplexRenderable()`. -/
def new : ComplexRenderable R :=
  { position := Vec3.splat 0, angles := Vec3.splat 0, scales := Vec3.splat 1,
    parent := none, texture := 0, textured := texturedDefault }

def getTranslation (n : ComplexRenderable R) : Mat4 R :=
  translate 1 n.position

def getRotation (M : ScalarFns R) (n : ComplexRenderable R) : Mat4 R :=
  let rx := rotate M 1 n.angles.x ⟨1, 0, 0⟩
  let ry := rotate M 1 n.angles.y ⟨0, 1, 0⟩
  let rz := rotate M 1 n.angles.z ⟨0, 0, 1⟩
  rz * ry * rx

def getScaling (n : ComplexRenderable R) : Mat4 R :=
  scale 1 n.scales

def getPosition (n : ComplexRenderable R) : Vec3 R := n.position

def setPosition (n : ComplexRenderable R) (position : Vec3 R) : ComplexRenderable R :=
  { n with position := position }

def getAngles (n : ComplexRenderable R) : Vec3 R := n.angles

def setAngles (n : ComplexRenderable R) (angles : Vec3 R) : ComplexRenderable R :=
  { n with angles := angles }

def getScales (n : ComplexRenderable R) : Vec3 R := n.scales

def setScales (n : ComplexRenderable R) (scales : Vec3 R) : ComplexRenderable R :=
  { n with scales := scales }

def getParent (n : ComplexRenderable R) : Ptr := n.parent

def setParent (n : ComplexRenderable R) (parent : Ptr) : ComplexRenderable R :=
  { n with parent := parent }

def getWorldTransform (M : ScalarFns R) (n : ComplexRenderable R) : Mat4 R :=
  n.getTranslation * n.getRotation M * n.getScaling

def getTexture (n : ComplexRenderable R) : Nat := n.texture

def setTexture (n : ComplexRenderable R) (texture : Nat) : ComplexRenderable R :=
  { n with texture := texture, textured := true }

def isTextured (n : ComplexRenderable R) : Bool := n.textured

end ComplexRenderable

end

/-! ## The heap -/

/-- The objects of the program: the opaque drawable payload returned by `createCuboid`
(`Renderable`), and the concrete subclasses of `ComplexRenderable`, each with the base-class
members and its own pointer members. -/
inductive Obj (R : Type) where
  | renderable (corner extent : Vec3 R)
  | simple (base : ComplexRenderable R) (renderable : Ptr)
  | skateboard (base : ComplexRenderable R) (plank : Ptr) (wheels : List Ptr) (character : Ptr)
  | charB (base : ComplexRenderable R) (bottom left bottomRight topRight top middle : Ptr)
  | charO (base : ComplexRenderable R) (bottom left right top : Ptr)
  | charU (base : ComplexRenderable R) (bottom left right : Ptr)
  | charD (base : ComplexRenderable R) (bottom left right top : Ptr)

/-- The store: cell `a` holds the object living at address `a`, or `none` once it has been
freed.  Addresses past the end have never been allocated. -/
abbrev Heap (R : Type) := List (Option (Obj R))

/-- What can go wrong: a null, wild or freed pointer is dereferenced or deleted (undefined
behaviour in C++), or the evaluation budget is used up. -/
inductive Fault where
  | invalidPointer
  | outOfFuel
deriving DecidableEq, Repr

section
variable {R : Type}

/-- The `ComplexRenderable` subobject, for the objects that have one. -/
def Obj.base : Obj R → Option (ComplexRenderable R)
  | .renderable _ _ => none
  | .simple b _ => some b
  | .skateboard b _ _ _ => some b
  | .charB b _ _ _ _ _ _ => some b
  | .charO b _ _ _ _ => some b
  | .charU b _ _ _ => some b
  | .charD b _ _ _ _ => some b

/-- Rewrite the `ComplexRenderable` subobject. -/
def Obj.mapBase (f : ComplexRenderable R → ComplexRenderable R) : Obj R → Obj R
  | .renderable c e => .renderable c e
  | .simple b r => .simple (f b) r
  | .skateboard b p w c => .skateboard (f b) p w c
  | .charB b x1 x2 x3 x4 x5 x6 => .charB (f b) x1 x2 x3 x4 x5 x6
  | .charO b x1 x2 x3 x4 => .charO (f b) x1 x2 x3 x4
  | .charU b x1 x2 x3 => .charU (f b) x1 x2 x3
  | .charD b x1 x2 x3 x4 => .charD (f b) x1 x2 x3 x4

/-- The live object at an address. -/
def Heap.get (h : Heap R) (a : Nat) : Option (Obj R) := h.getD a none

/-- The expression `new T(...)`: the object is placed at the next fresh address. -/
def Heap.alloc (h : Heap R) (o : Obj R) : Heap R × Nat := (h ++ [some o], h.length)

/-- Overwrite the object at an address. -/
def Heap.put (h : Heap R) (a : Nat) (o : Obj R) : Heap R := h.set a (some o)

/-- Release the storage at an address. -/
def Heap.free (h : Heap R) (a : Nat) : Heap R := h.set a none

/-- The node (`ComplexRenderable` subobject) a pointer refers to, if it refers to a live one. -/
def Heap.node (h : Heap R) (a : Nat) : Option (ComplexRenderable R) :=
  (h.get a).bind Obj.base

/-- A call `a->setX(...)` of one of the base-class setters on the object at `a`. -/
def Heap.update (h : Heap R) (a : Nat) (f : ComplexRenderable R → ComplexRenderable R) :
    Except Fault (Heap R) :=
  match h.get a with
  | some o => if o.base.isSome then .ok (h.put a (o.mapBase f)) else .error .invalidPointer
  | none => .error .invalidPointer

/-- The call `p->setX(...)` through a pointer that may be null. -/
def Heap.updatePtr (h : Heap R) (p : Ptr) (f : ComplexRenderable R → ComplexRenderable R) :
    Except Fault (Heap R) :=
  match p with
  | some a => h.update a f
  | none => .error .invalidPointer

end

section
variable {R : Type} [CommRing R]

/-- The method `ComplexRenderable::hwtHelper`, called on the object at address `this`. -/
def hwtHelper (M : ScalarFns R) (h : Heap R) : Nat → Nat → Mat4 R → Except Fault (Mat4 R)
  | 0, _, _ => .error .outOfFuel
  | fuel + 1, this, m =>
    match h.node this with
    | none => .error .invalidPointer
    | some n =>
      let mn := n.getWorldTransform M * m
      match n.parent with
      | some parent => hwtHelper M h fuel parent mn
      | none => .ok mn

/-- The method `ComplexRenderable::getHierarchicalWorldTransform`, on the object at `this`. -/
def getHierarchicalWorldTransform (M : ScalarFns R) (h : Heap R) (fuel : Nat) (this : Nat) :
    Except Fault (Mat4 R) :=
  hwtHelper M h fuel this 1

/-- The list `l` is the parent chain of its head: every entry is a live node, each entry's
parent is the next entry, and the last entry has no parent. -/
def ParentChain (h : Heap R) : List Nat → Prop
  | [] => False
  | [a] => (h.node a).map (fun n => n.parent) = some none
  | a :: b :: rest => (h.node a).map (fun n => n.parent) = some (some b) ∧ ParentChain h (b :: rest)

end

section
variable {R : Type} [CommRing R]

/-- The local transform of the node at an address (the identity where there is no node). -/
def localAt (M : ScalarFns R) (h : Heap R) (a : Nat) : Mat4 R :=
  match h.node a with
  | some n => n.getWorldTransform M
  | none => 1

/-- The address `a` holds a live node with the given position, angles, scales and parent. -/
def Heap.HasNode (h : Heap R) (a : Nat) (position angles scales : Vec3 R) (parent : Ptr) :
    Prop :=
  ∃ n, h.node a = some n ∧ n.position = position ∧ n.angles = angles ∧ n.scales = scales ∧
    n.parent = parent

/-- A node with position `t`, zero angles and unit scales. -/
def IsTranslationNode (h : Heap R) (t : Vec3 R) (x : Nat) : Prop :=
  ∃ n, h.node x = some n ∧ n.position = t ∧ n.angles = Vec3.splat 0 ∧ n.scales = Vec3.splat 1

/-- The product of the local transforms along a chain listed from the deepest node to the
root: root first, deepest node last. -/
def chainTransform (M : ScalarFns R) (h : Heap R) : List Nat → Mat4 R
  | [] => 1
  | a :: rest => chainTransform M h rest * localAt M h a

end

/-! ## Construction -/

section
variable {R : Type}

/-- Rewrite the object at an address (an assignment to one of its members). -/
def Heap.modify (h : Heap R) (a : Nat) (f : Obj R → Obj R) : Heap R :=
  match h.get a with
  | some o => h.put a (f o)
  | none => h

/-- The assignment `plank = p` inside a `Skateboard`. -/
def Obj.setPlank (p : Ptr) : Obj R → Obj R
  | .skateboard b _ w c => .skateboard b p w c
  | o => o

/-- The assignment `wheels[i] = p` inside a `Skateboard`. -/
def Obj.setWheel (i : Nat) (p : Ptr) : Obj R → Obj R
  | .skateboard b pl w c => .skateboard b pl (w.set i p) c
  | o => o

/-- Modelled from the spec: `createCuboid` of `renderutils.hpp` (not part of the sources),
the "drawable primitive ... constructible from a shape specification (e.g., axis-aligned box
corner + extent)"; it returns a pointer to a freshly allocated payload. -/
def createCuboid (h : Heap R) (corner extent : Vec3 R) : Heap R × Nat :=
  h.alloc (.renderable corner extent)

end

section
variable {R : Type} [Field R]

/-- The expression `new SimpleComplexRenderable(renderable)`. -/
def SimpleComplexRenderable.new (h : Heap R) (renderable : Ptr) : Heap R × Nat :=
  h.alloc (.simple ComplexRenderable.new renderable)

/-- The statements `x = new SimpleComplexRenderable(createCuboid(corner, extent));
x->setParent(parent);` shared by all the constructors; returns the new part's address. -/
def newPart (h : Heap R) (corner extent : Vec3 R) (parent : Nat) :
    Except Fault (Heap R × Nat) :=
  let (h1, c) := createCuboid h corner extent
  let (h2, x) := SimpleComplexRenderable.new h1 (some c)
  match h2.update x (fun n => n.setParent (some parent)) with
  | .ok h3 => .ok (h3, x)
  | .error e => .error e

/-- The loop `for (int i = 0; i < 4; i++)` of the `Skateboard` constructor, from index `i`
for `count` more rounds. -/
def Skateboard.wheelLoop (this plank : Nat) : Nat → Nat → Heap R → Except Fault (Heap R)
  | 0, _, h => .ok h
  | count + 1, i, h =>
    match newPart h (Vec3.splat (-0.5)) (Vec3.splat 1) plank with
    | .ok (h1, w) => Skateboard.wheelLoop this plank count (i + 1) (h1.modify this (Obj.setWheel i (some w)))
    | .error e => .error e

/-- The member `wheels[i]` of the `Skateboard` at `this`. -/
def Skateboard.wheel (h : Heap R) (this : Nat) (i : Nat) : Ptr :=
  match h.get this with
  | some (.skateboard _ _ w _) => w.getD i none
  | _ => none

/-- The statement `wheels[i]->setPosition(wheels[i]->getPosition() + offset)`. -/
def Skateboard.moveWheel (h : Heap R) (this : Nat) (i : Nat) (offset : Vec3 R) :
    Except Fault (Heap R) :=
  h.updatePtr (Skateboard.wheel h this i) (fun n => n.setPosition (n.getPosition.add offset))

/-- The expression `new Skateboard(character)`; the members `plank` and `wheels` have no
initialiser and are assigned in the body. -/
def Skateboard.new (h : Heap R) (character : Ptr) : Except Fault (Heap R × Nat) := do
  let (h0, this) := h.alloc (.skateboard ComplexRenderable.new none [none, none, none, none] character)
  let (h1, plank) ← newPart h0 ⟨-4.0, 1.0, -2.0⟩ ⟨8.0, 0.2, 4.0⟩ this
  let h2 := h1.modify this (Obj.setPlank (some plank))
  let h3 ← Skateboard.wheelLoop this plank 4 0 h2
  let h4 ← Skateboard.moveWheel h3 this 0 ⟨-1.5, 0.5, -1.5⟩
  let h5 ← Skateboard.moveWheel h4 this 1 ⟨-1.5, 0.5, 1.5⟩
  let h6 ← Skateboard.moveWheel h5 this 2 ⟨1.5, 0.5, -1.5⟩
  let h7 ← Skateboard.moveWheel h6 this 3 ⟨1.5, 0.5, 1.5⟩
  let h8 ← h7.updatePtr character (fun n => n.setParent (some this))
  pure (h8, this)

/-- The expression `new CharB()`.  Each member is assigned right after its part is created;
no member is read during construction, so the six assignments are written as one step. -/
def CharB.new (h : Heap R) : Except Fault (Heap R × Nat) := do
  let (h0, this) := h.alloc (.charB ComplexRenderable.new none none none none none none)
  let (h1, bottom) ← newPart h0 ⟨-2.0, 1.2, -0.1⟩ ⟨4.0, 0.5, 0.2⟩ this
  let (h2, left) ← newPart h1 ⟨-2.0, 1.2, -0.1⟩ ⟨0.5, 5.0, 0.2⟩ this
  let (h3, bottomRight) ← newPart h2 ⟨1.5, 1.2, -0.1⟩ ⟨0.5, 2.0, 0.2⟩ this
  let (h4, topRight) ← newPart h3 ⟨1.5, 4.2, -0.1⟩ ⟨0.5, 2.0, 0.2⟩ this
  let (h5, top) ← newPart h4 ⟨-2.0, 6.2, -0.1⟩ ⟨4.0, 0.5, 0.2⟩ this
  let (h6, middle) ← newPart h5 ⟨-2.0, 3.2, -0.1⟩ ⟨3.5, 1.0, 0.2⟩ this
  pure (h6.modify this (fun o => match o with
    | .charB b _ _ _ _ _ _ =>
      .charB b (some bottom) (some left) (some bottomRight) (some topRight) (some top) (some middle)
    | o => o), this)

/-- The expression `new CharO()`, the four member assignments written as one step. -/
def CharO.new (h : Heap R) : Except Fault (Heap R × Nat) := do
  let (h0, this) := h.alloc (.charO ComplexRenderable.new none none none none)
  let (h1, bottom) ← newPart h0 ⟨-2.0, 1.2, -0.1⟩ ⟨4.0, 0.5, 0.2⟩ this
  let (h2, left) ← newPart h1 ⟨-2.0, 1.2, -0.1⟩ ⟨0.5, 5.0, 0.2⟩ this
  let (h3, right) ← newPart h2 ⟨1.5, 1.2, -0.1⟩ ⟨0.5, 5.0, 0.2⟩ this
  let (h4, top) ← newPart h3 ⟨-2.0, 6.2, -0.1⟩ ⟨4.0, 0.5, 0.2⟩ this
  pure (h4.modify this (fun o => match o with
    | .charO b _ _ _ _ => .charO b (some bottom) (some left) (some right) (some top)
    | o => o), this)

/-- The expression `new CharU()`, the three member assignments written as one step. -/
def CharU.new (h : Heap R) : Except Fault (Heap R × Nat) := do
  let (h0, this) := h.alloc (.charU ComplexRenderable.new none none none)
  let (h1, bottom) ← newPart h0 ⟨-2.0, 1.2, -0.1⟩ ⟨4.0, 0.5, 0.2⟩ this
  let (h2, left) ← newPart h1 ⟨-2.0, 1.2, -0.1⟩ ⟨0.5, 5.0, 0.2⟩ this
  let (h3, right) ← newPart h2 ⟨1.5, 1.2, -0.1⟩ ⟨0.5, 5.0, 0.2⟩ this
  pure (h3.modify this (fun o => match o with
    | .charU b _ _ _ => .charU b (some bottom) (some left) (some right)
    | o => o), this)

/-- The expression `new CharD()`.  The constructor body is empty and assigns none of the four
pointer members, so they keep whatever indeterminate values the storage held: `bottom`,
`left`, `right`, `top` below. -/
def CharD.new (h : Heap R) (bottom left right top : Ptr) : Heap R × Nat :=
  h.alloc (.charD ComplexRenderable.new bottom left right top)

end

/-! ## Destruction -/

section
variable {R : Type}

/-- The pointers a destructor body passes to `delete`, in source order.  The payload
`Renderable` owns nothing; `~ComplexRenderable` is defaulted and deletes nothing. -/
def Obj.dtorDeletes : Obj R → List Ptr
  | .renderable _ _ => []
  | .simple _ payload => [payload]
  | .skateboard _ plank wheels character => plank :: wheels ++ [character]
  | .charB _ bottom left bottomRight topRight top middle =>
    [top, left, topRight, bottomRight, bottom, middle]
  | .charO _ bottom left right top => [top, left, right, bottom]
  | .charU _ bottom left right => [left, right, bottom]
  | .charD _ bottom left right top => [top, left, right, bottom]

/-- Run a sequence of `delete` statements, threading the heap and collecting the freed
addresses in order. -/
def deleteList (del : Heap R → Ptr → Except Fault (Heap R × List Nat)) :
    Heap R → List Ptr → Except Fault (Heap R × List Nat)
  | h, [] => .ok (h, [])
  | h, p :: ps =>
    match del h p with
    | .error e => .error e
    | .ok (h1, l1) =>
      match deleteList del h1 ps with
      | .error e => .error e
      | .ok (h2, l2) => .ok (h2, l1 ++ l2)

/-- The statement `delete p`.  Deleting `nullptr` does nothing.  Otherwise the pointer must
refer to a live object (deleting a wild or already freed pointer is undefined behaviour); the
destructor body of the object's dynamic type runs, then the storage is released.  The
destructors are taken to be virtual, as the spec's "destroying a composite node recursively
destroys everything it owns" requires; their declarations are in `complexrenderable.hpp`,
which is not part of the sources.  Returns the new heap and the addresses released, in
order. -/
def delete : Nat → Heap R → Ptr → Except Fault (Heap R × List Nat)
  | _, h, none => .ok (h, [])
  | 0, _, some _ => .error .outOfFuel
  | fuel + 1, h, some a =>
    match h.get a with
    | none => .error .invalidPointer
    | some o =>
      match deleteList (delete fuel) h o.dtorDeletes with
      | .error e => .error e
      | .ok (h1, l) => .ok (h1.free a, l ++ [a])

/-- The addresses of the live objects of a heap. -/
def Heap.live (h : Heap R) : List Nat :=
  (List.range h.length).filter fun a => (h.get a).isSome

/-- The address holds a live object. -/
def Heap.isLive (h : Heap R) (a : Nat) : Bool := (h.get a).isSome

/-- The parent pointer of the live node at an address. -/
def Heap.parentOf (h : Heap R) (a : Nat) : Option Ptr := (h.node a).map fun n => n.parent

/-- The address holds a live node whose parent pointer refers to an address that holds no
live object. -/
def Heap.dangles (h : Heap R) (a : Nat) : Bool :=
  match h.node a with
  | some n =>
    match n.parent with
    | some p => !(h.get p).isSome
    | none => false
  | none => false

/-- The live nodes whose parent pointer refers to an address holding no live object. -/
def Heap.danglingNodes (h : Heap R) : List Nat :=
  (List.range h.length).filter h.dangles

/-- Every live node's parent is `nullptr` or a live object. -/
def Heap.noDanglingParent (h : Heap R) : Bool :=
  h.danglingNodes.isEmpty

/-- The heaps reached after each single release of a sequence, in order. -/
def statesAfter (h : Heap R) : List Nat → List (Heap R)
  | [] => []
  | a :: rest => h.free a :: statesAfter (h.free a) rest

end

section
variable {R : Type}

/-- The heaps reached after each single release performed by `delete p`, in order. -/
def destroySteps (fuel : Nat) (h : Heap R) (p : Ptr) : Except Fault (List (Heap R)) :=
  match delete fuel h p with
  | .ok (_, l) => .ok (statesAfter h l)
  | .error e => .error e

end

/-! ### Relocation

A block of objects built on the empty heap, moved behind an existing heap `h0`: every
pointer stored in the block is advanced by `h0.length`. -/

section
variable {R : Type}

/-- Advance a pointer by `n` addresses; `nullptr` stays `nullptr`. -/
def shiftPtr (n : Nat) (p : Ptr) : Ptr := p.map fun a => n + a

/-- Advance the parent pointer of a node. -/
def ComplexRenderable.shift (n : Nat) (b : ComplexRenderable R) : ComplexRenderable R :=
  { b with parent := shiftPtr n b.parent }

/-- Advance every pointer stored in an object. -/
def Obj.shift (n : Nat) : Obj R → Obj R
  | .renderable c e => .renderable c e
  | .simple b r => .simple (b.shift n) (shiftPtr n r)
  | .skateboard b p w c => .skateboard (b.shift n) (shiftPtr n p) (w.map (shiftPtr n)) (shiftPtr n c)
  | .charB b x1 x2 x3 x4 x5 x6 =>
    .charB (b.shift n) (shiftPtr n x1) (shiftPtr n x2) (shiftPtr n x3) (shiftPtr n x4)
      (shiftPtr n x5) (shiftPtr n x6)
  | .charO b x1 x2 x3 x4 =>
    .charO (b.shift n) (shiftPtr n x1) (shiftPtr n x2) (shiftPtr n x3) (shiftPtr n x4)
  | .charU b x1 x2 x3 => .charU (b.shift n) (shiftPtr n x1) (shiftPtr n x2) (shiftPtr n x3)
  | .charD b x1 x2 x3 x4 =>
    .charD (b.shift n) (shiftPtr n x1) (shiftPtr n x2) (shiftPtr n x3) (shiftPtr n x4)

/-- Advance every pointer stored in a block of cells. -/
def Heap.shift (n : Nat) (l : Heap R) : Heap R := l.map (Option.map (Obj.shift n))

/-- The block `l` placed behind the heap `h0`. -/
def Heap.relocate (h0 l : Heap R) : Heap R := h0 ++ Heap.shift h0.length l

end

/-- The three glyph assemblies whose constructors build their parts. -/
inductive Glyph where
  | B
  | O
  | U
deriving DecidableEq, Repr

/-- The expression `new CharB()`, `new CharO()` or `new CharU()`. -/
def Glyph.new {R : Type} [Field R] (g : Glyph) (h : Heap R) : Except Fault (Heap R × Nat) :=
  match g with
  | .B => CharB.new h
  | .O => CharO.new h
  | .U => CharU.new h

/-- The heap a constructor returned (the empty heap if it faulted). -/
def heapOf {R : Type} (r : Except Fault (Heap R × Nat)) : Heap R :=
  match r with
  | .ok (h, _) => h
  | .error _ => []

/-- The block of objects `new CharB()`, `new CharO()` or `new CharU()` builds on the empty
heap: the glyph at address 0, then each part's payload followed by the part. -/
def glyphBlock {R : Type} [Field R] (g : Glyph) : Heap R := heapOf (g.new [])

/-- The block built on the empty heap by a glyph constructor followed by
`new Skateboard(glyph)`: the glyph's block, then the board, the plank's payload, the plank,
and each wheel's payload followed by the wheel. -/
def boardBlock {R : Type} [Field R] (g : Glyph) : Heap R :=
  heapOf (Skateboard.new (glyphBlock g) (some 0))

/-- The dangling nodes recorded after each of `total` releases when only the four wheels of
the `Skateboard` at address `s` (at `s + 4`, `s + 6`, `s + 8`, `s + 10`) ever dangle: none
after the first release (the plank's payload), all four wheels once the plank (`s + 2`) is
released, one wheel fewer after each wheel's release, and none from the ninth release on. -/
def wheelOrphans (s total : Nat) : List (List Nat) :=
  [ [],
    [s + 4, s + 6, s + 8, s + 10], [s + 4, s + 6, s + 8, s + 10],
    [s + 6, s + 8, s + 10], [s + 6, s + 8, s + 10],
    [s + 8, s + 10], [s + 8, s + 10],
    [s + 10], [s + 10] ] ++ List.replicate (total - 9) []

/-! ## Rendering -/

/-- The uniform names of `shaders.hpp` used by the render methods. -/
inductive Uniform where
  | MODEL
  | TEXTURE_MAP
  | TEXTURE_PRESENT
  | OBJECT_COLOR
deriving DecidableEq, Repr

/-- The calls a render method makes on the graphics pipeline, in the order made. -/
inductive GLCmd (R : Type) where
  | setUniformMat4 (shader : Nat) (name : Uniform) (m : Mat4 R)
  | setUniformVec3 (shader : Nat) (name : Uniform) (v : Vec3 R)
  | setUniformInt (shader : Nat) (name : Uniform) (v : Int)
  | glActiveTexture (unit : Nat)
  | glBindTexture (texture : Nat)
  | draw (renderable : Nat)

section
variable {R : Type} [CommRing R]

/-- A command is a texture bind. -/
def GLCmd.isBind : GLCmd R → Bool
  | .glBindTexture _ => true
  | _ => false

/-- The method `SimpleComplexRenderable::render(shader)` on the object at `this`:
`GL_TEXTURE0` is unit 0, `glBindTexture` is always on target `GL_TEXTURE_2D`, the `bool`
returned by `isTextured()` converts to the `int` 1 or 0, and `renderable->render()` is the
payload's draw call. -/
def SimpleComplexRenderable.render (M : ScalarFns R) (h : Heap R) (fuel : Nat) (this : Nat)
    (shader : Nat) : Except Fault (List (GLCmd R)) :=
  match h.get this with
  | some (.simple base renderable) =>
    match getHierarchicalWorldTransform M h fuel this with
    | .error e => .error e
    | .ok model =>
      match renderable with
      | some r =>
        match h.get r with
        | some (.renderable _ _) =>
          .ok [ .setUniformMat4 shader .MODEL model,
                .glActiveTexture 0,
                .glBindTexture base.getTexture,
                .setUniformInt shader .TEXTURE_MAP 0,
                .setUniformInt shader .TEXTURE_PRESENT (if base.isTextured then 1 else 0),
                .draw r ]
        | _ => .error .invalidPointer
      | none => .error .invalidPointer
  | _ => .error .invalidPointer

end

/-! ## Concrete data for the worked examples -/

/-- A stand-in over the rationals for the maths library: the rational parametrisation of the
circle for `cos` and `sin` (exact at angle 0, and `cos ^ 2 + sin ^ 2 = 1` everywhere), and a
reciprocal-square-root stand-in that is exact at 1. -/
def ratFns : ScalarFns ℚ where
  cos a := (1 - a ^ 2) / (1 + a ^ 2)
  sin a := 2 * a / (1 + a ^ 2)
  inversesqrt x := 2 / (1 + x)

/-- A `CharO` at address 0 (parts at 1..8), then a `Skateboard` at address 9 carrying it:
plank payload 10, plank 11, wheel payloads 12, 14, 16, 18, wheels 13, 15, 17, 19. -/
def boardHeap : Heap ℚ :=
  heapOf (Skateboard.new (heapOf (CharO.new [])) (some 0))

/-- The heap `boardHeap` after `board->setPosition(glm::vec3(10, 0, 0))`. -/
def movedBoardHeap : Heap ℚ :=
  match boardHeap.update 9 (fun n => n.setPosition ⟨10, 0, 0⟩) with
  | .ok h => h
  | .error _ => []

/-- A one-node scene: a payload at address 0 and, at address 1, a parentless drawable-wrapping
node at position (-4, 1, -2) on which `setTexture` was never called (`textured` false,
texture handle 0). -/
def plainHeap : Heap ℚ :=
  [ some (.renderable ⟨-4, 1, -2⟩ ⟨8, 0.2, 4⟩),
    some (.simple
      { position := ⟨-4, 1, -2⟩, angles := Vec3.splat 0, scales := Vec3.splat 1,
        parent := none, texture := 0, textured := false } (some 0)) ]

/-- A chain of three drawable-less nodes, each at position (1, 2, 3) with zero angles and unit
scales: node 0 has no parent, node 1 is its child, node 2 the child of node 1. -/
def chainHeap : Heap ℚ :=
  [ some (.simple { position := ⟨1, 2, 3⟩, angles := Vec3.splat 0, scales := Vec3.splat 1,
                    parent := none, texture := 0, textured := false } none),
    some (.simple { position := ⟨1, 2, 3⟩, angles := Vec3.splat 0, scales := Vec3.splat 1,
                    parent := some 0, texture := 0, textured := false } none),
    some (.simple { position := ⟨1, 2, 3⟩, angles := Vec3.splat 0, scales := Vec3.splat 1,
                    parent := some 1, texture := 0, textured := false } none) ]

/-- The heap holding one freshly constructed drawable-wrapping node, at address 0. -/
def freshHeap : Heap ℚ := (SimpleComplexRenderable.new [] none).1

/-! ## Rendering of the assemblies -/

section
variable {R : Type} [Field R]

/-- The calls `x->render(shader)` through a sequence of member pointers, in order; a null
pointer cannot be called through. -/
def renderList (rnd : Nat → Except Fault (List (GLCmd R))) :
    List Ptr → Except Fault (List (GLCmd R))
  | [] => .ok []
  | none :: _ => .error .invalidPointer
  | some a :: ps =>
    match rnd a with
    | .error e => .error e
    | .ok t =>
      match renderList rnd ps with
      | .error e => .error e
      | .ok ts => .ok (t ++ ts)

/-- The virtual call `this->render(shader)`, dispatched on the dynamic type of the object at
`this`: `SimpleComplexRenderable::render`, `Skateboard::render`, `CharB::render`,
`CharO::render`, `CharU::render` or `CharD::render`.  `hfuel` is the budget of each
hierarchical-transform walk, the first numeric argument the budget of nested render calls. -/
def render (M : ScalarFns R) (h : Heap R) (hfuel shader : Nat) :
    Nat → Nat → Except Fault (List (GLCmd R))
  | 0, _ => .error .outOfFuel
  | fuel + 1, this =>
    match h.get this with
    | none => .error .invalidPointer
    | some (.renderable _ _) => .error .invalidPointer
    | some (.simple _ _) => SimpleComplexRenderable.render M h hfuel this shader
    | some (.skateboard _ plank wheels character) =>
      match renderList (render M h hfuel shader fuel) [plank] with
      | .error e => .error e
      | .ok t1 =>
        match renderList (render M h hfuel shader fuel) wheels with
        | .error e => .error e
        | .ok t2 =>
          match (match character with
                 | some c => render M h hfuel shader fuel c
                 | none => .ok []) with
          | .error e => .error e
          | .ok t3 =>
            .ok ([.setUniformVec3 shader .OBJECT_COLOR ⟨193.0 / 255.0, 154.0 / 255.0, 107.0 / 255.0⟩]
              ++ t1 ++ [.setUniformVec3 shader .OBJECT_COLOR (Vec3.splat 0.0)] ++ t2 ++ t3)
    | some (.charB _ bottom left bottomRight topRight top middle) =>
      match renderList (render M h hfuel shader fuel)
          [bottom, left, bottomRight, topRight, top, middle] with
      | .error e => .error e
      | .ok t =>
        .ok ([.setUniformVec3 shader .OBJECT_COLOR (Vec3.splat 0.0),
              .setUniformInt shader .TEXTURE_PRESENT 0] ++ t)
    | some (.charO _ bottom left right top) =>
      match renderList (render M h hfuel shader fuel) [bottom, left, right, top] with
      | .error e => .error e
      | .ok t =>
        .ok ([.setUniformVec3 shader .OBJECT_COLOR (Vec3.splat (1.0 / 6.0)),
              .setUniformInt shader .TEXTURE_PRESENT 0] ++ t)
    | some (.charU _ bottom left right) =>
      match renderList (render M h hfuel shader fuel) [bottom, left, right] with
      | .error e => .error e
      | .ok t =>
        .ok ([.setUniformVec3 shader .OBJECT_COLOR (Vec3.splat (2.0 / 6.0)),
              .setUniformInt shader .TEXTURE_PRESENT 0] ++ t)
    | some (.charD _ bottom left right top) =>
      match renderList (render M h hfuel shader fuel) [bottom, left, right, top] with
      | .error e => .error e
      | .ok t =>
        .ok ([.setUniformVec3 shader .OBJECT_COLOR (Vec3.splat (3.0 / 6.0)),
              .setUniformInt shader .TEXTURE_PRESENT 0] ++ t)

end

/-! ## The pipeline state seen by each draw -/

/-- The part of the graphics pipeline state the render methods write: the last value written
to each uniform and the last texture bound, `none` while nothing was written. -/
structure Pipeline (R : Type) where
  model : Option (Mat4 R)
  objectColor : Option (Vec3 R)
  textureMap : Option Int
  texturePresent : Option Int
  boundTexture : Option Nat

section
variable {R : Type}

/-- The pipeline before any command. -/
def Pipeline.init : Pipeline R :=
  { model := none, objectColor := none, textureMap := none, texturePresent := none,
    boundTexture := none }

/-- The effect of one command on the pipeline state. -/
def Pipeline.step (s : Pipeline R) : GLCmd R → Pipeline R
  | .setUniformMat4 _ .MODEL m => { s with model := some m }
  | .setUniformVec3 _ .OBJECT_COLOR v => { s with objectColor := some v }
  | .setUniformInt _ .TEXTURE_MAP v => { s with textureMap := some v }
  | .setUniformInt _ .TEXTURE_PRESENT v => { s with texturePresent := some v }
  | .glBindTexture t => { s with boundTexture := some t }
  | _ => s

/-- The draws of a trace, in order, each with the pipeline state in effect when it is
issued. -/
def drawStates : Pipeline R → List (GLCmd R) → List (Nat × Pipeline R)
  | _, [] => []
  | s, .draw r :: rest => (r, s) :: drawStates s rest
  | s, c :: rest => drawStates (s.step c) rest

/-- The pipeline state after a trace. -/
def Pipeline.run (s : Pipeline R) (trace : List (GLCmd R)) : Pipeline R :=
  trace.foldl Pipeline.step s

/-- A command is a draw. -/
def GLCmd.isDraw : GLCmd R → Bool
  | .draw _ => true
  | _ => false

end

/-! ## The local transform as the spec words it -/

section
variable {R : Type} [CommRing R]

/-- The pure translation matrix by `p`. -/
def translationMatrix (p : Vec3 R) : Mat4 R :=
  !![1, 0, 0, p.x; 0, 1, 0, p.y; 0, 0, 1, p.z; 0, 0, 0, 1]

/-- The pure scale matrix by `s`. -/
def scalingMatrix (s : Vec3 R) : Mat4 R :=
  !![s.x, 0, 0, 0; 0, s.y, 0, 0; 0, 0, s.z, 0; 0, 0, 0, 1]

/-- The rotation about the world X axis by the angle `a`. -/
def rotationX (M : ScalarFns R) (a : R) : Mat4 R :=
  !![1, 0, 0, 0; 0, M.cos a, -M.sin a, 0; 0, M.sin a, M.cos a, 0; 0, 0, 0, 1]

/-- The rotation about the world Y axis by the angle `a`. -/
def rotationY (M : ScalarFns R) (a : R) : Mat4 R :=
  !![M.cos a, 0, M.sin a, 0; 0, 1, 0, 0; -M.sin a, 0, M.cos a, 0; 0, 0, 0, 1]

/-- The rotation about the world Z axis by the angle `a`. -/
def rotationZ (M : ScalarFns R) (a : R) : Mat4 R :=
  !![M.cos a, -M.sin a, 0, 0; M.sin a, M.cos a, 0, 0; 0, 0, 1, 0; 0, 0, 0, 1]

/-- The homogeneous point `(p, 1)`. -/
def Vec3.toPoint (p : Vec3 R) : Fin 4 → R := ![p.x, p.y, p.z, 1]

/-- The matrix applied to the homogeneous point `(p, 1)`, first three components. -/
def transformPoint (m : Mat4 R) (p : Vec3 R) : Vec3 R :=
  ⟨m.mulVec p.toPoint 0, m.mulVec p.toPoint 1, m.mulVec p.toPoint 2⟩

/-! ## The parent-chain walk as a total function -/

/-- A heap whose parent references are acyclic (the data model's forest invariant): `rank`
bounds the length of the chain that remains above a node, and strictly decreases from every
node to its parent. -/
structure Forest (R : Type) where
  heap : Heap R
  rank : Nat → Nat
  decreasing : ∀ a n p, heap.node a = some n → n.parent = some p → rank p < rank a

set_option linter.unusedVariables false in
/-- The method `ComplexRenderable::hwtHelper` over a forest, by well-founded recursion on the
rank of `this`; besides the matrix it returns the number of `hwtHelper` calls made. -/
def hwtHelperTotal (M : ScalarFns R) (F : Forest R) (this : Nat) (m : Mat4 R) :
    Except Fault (Mat4 R × Nat) :=
  match hn : F.heap.node this with
  | none => .error .invalidPointer
  | some n =>
    match hp : n.parent with
    | some parent =>
      match hwtHelperTotal M F parent (n.getWorldTransform M * m) with
      | .ok (r, k) => .ok (r, k + 1)
      | .error e => .error e
    | none => .ok (n.getWorldTransform M * m, 1)
termination_by F.rank this
decreasing_by exact F.decreasing this n parent hn hp

/-- The address `p` holds a drawable-wrapping node whose payload, at address `r`, is live and
whose parent chain is finite and within the walk budget `hfuel`. -/
def DrawablePart (h : Heap R) (hfuel : Nat) (p r : Nat) : Prop :=
  ∃ base c e rest, h.get p = some (.simple base (some r)) ∧ h.get r = some (.renderable c e) ∧
    ParentChain h (p :: rest) ∧ rest.length < hfuel

end

/-- The addresses of the parts of a glyph built at address `n`, in render order: each part
follows its payload, so the parts are at `n + 2`, `n + 4`, and so on. -/
def Glyph.parts (g : Glyph) (n : Nat) : List Nat :=
  match g with
  | .B => [n + 2, n + 4, n + 6, n + 8, n + 10, n + 12]
  | .O => [n + 2, n + 4, n + 6, n + 8]
  | .U => [n + 2, n + 4, n + 6]

/-- The heap `chainHeap` as a forest: the rank of a node is its address. -/
def chainForest : Forest ℚ where
  heap := chainHeap
  rank a := a
  decreasing := by
    intro a n p hn hp
    match a with
    | 0 =>
      have h0 : n = _ := (Option.some.inj hn).symm
      subst h0
      simp at hp
    | 1 =>
      have h0 : n = _ := (Option.some.inj hn).symm
      subst h0
      have hp0 : p = 0 := (Option.some.inj hp).symm
      subst hp0
      exact Nat.zero_lt_one
    | 2 =>
      have h0 : n = _ := (Option.some.inj hn).symm
      subst h0
      have hp1 : p = 1 := (Option.some.inj hp).symm
      subst hp1
      exact Nat.lt_succ_self 1
    | a + 3 => simp [Heap.node, Heap.get, chainHeap] at hn

/-- The heap after `new CharB()`, `new CharO()` or `new CharU()` on the heap `h0` followed by
base-class setter calls on the new glyph, `f` being their combined effect on its
`ComplexRenderable` members (the empty heap if a step faults). -/
def glyphAfter {R : Type} [Field R] (g : Glyph) (h0 : Heap R)
    (f : ComplexRenderable R → ComplexRenderable R) : Heap R :=
  match g.new h0 with
  | .ok (h, a) =>
    match h.update a f with
    | .ok h2 => h2
    | .error _ => []
  | .error _ => []

/-! ## Lemmas on glm -/

section
variable {R : Type} [CommRing R]

theorem translate_one_mul_translate_one (a b : Vec3 R) :
    translate (1 : Mat4 R) a * translate 1 b = translate 1 (a.add b) := by
  ext i j
  fin_cases i <;> fin_cases j <;>
    simp [translate, Vec3.add, Matrix.mul_apply, Fin.sum_univ_four, Matrix.one_apply] <;> ring

theorem translate_one_zero : translate (1 : Mat4 R) (Vec3.splat 0) = 1 := by
  ext i j
  fin_cases i <;> fin_cases j <;> simp [translate, Vec3.splat, Matrix.one_apply]

theorem scale_one_one : scale (1 : Mat4 R) (Vec3.splat 1) = 1 := by
  ext i j
  fin_cases i <;> fin_cases j <;> simp [scale, Vec3.splat, Matrix.one_apply]

theorem rotate_one_zero (M : ScalarFns R) (hc : M.cos 0 = 1) (hs : M.sin 0 = 0) (v : Vec3 R) :
    rotate M (1 : Mat4 R) 0 v = 1 := by
  ext i j
  fin_cases i <;> fin_cases j <;>
    simp [rotate, rotateBlock, Vec3.smul, hc, hs, Matrix.one_apply]

theorem translationColumn_translate_one (p : Vec3 R) :
    translationColumn (translate (1 : Mat4 R) p) = p := by
  cases p
  simp [translationColumn, translate, Matrix.one_apply]

end

/-! ## Lemmas on the parent-chain walk -/

section
variable {R : Type} [CommRing R]

theorem parentChain_head {h : Heap R} {a : Nat} {rest : List Nat}
    (hc : ParentChain h (a :: rest)) :
    ∃ n, h.node a = some n ∧ n.parent = rest.head? := by
  cases rest with
  | nil =>
    simp only [ParentChain] at hc
    cases hn : h.node a with
    | none => simp [hn] at hc
    | some n => exact ⟨n, rfl, by simpa [hn] using hc⟩
  | cons b rest =>
    simp only [ParentChain] at hc
    cases hn : h.node a with
    | none => simp [hn] at hc
    | some n => exact ⟨n, rfl, by simpa [hn] using hc.1⟩

theorem parentChain_tail {h : Heap R} {a b : Nat} {rest : List Nat}
    (hc : ParentChain h (a :: b :: rest)) : ParentChain h (b :: rest) := by
  simp only [ParentChain] at hc
  exact hc.2

/-- With fuel for every node of the chain, the walk returns the product of the local
transforms along the chain times the accumulator. -/
theorem hwtHelper_chain (M : ScalarFns R) (h : Heap R) :
    ∀ (l : List Nat) (a : Nat) (fuel : Nat) (m : Mat4 R),
      ParentChain h (a :: l) → l.length < fuel →
      hwtHelper M h fuel a m = .ok (chainTransform M h (a :: l) * m) := by
  intro l
  induction l with
  | nil =>
    intro a fuel m hc hf
    obtain ⟨n, hn, hp⟩ := parentChain_head hc
    cases fuel with
    | zero => simp at hf
    | succ f =>
      simp only [List.head?_nil] at hp
      simp [hwtHelper, hn, hp, chainTransform, localAt]
  | cons b rest ih =>
    intro a fuel m hc hf
    obtain ⟨n, hn, hp⟩ := parentChain_head hc
    cases fuel with
    | zero => simp at hf
    | succ f =>
      simp only [List.head?_cons] at hp
      have hf2 : rest.length < f := by simpa using hf
      have := ih b f (n.getWorldTransform M * m) (parentChain_tail hc) hf2
      simp only [hwtHelper, hn, hp, this]
      simp [chainTransform, localAt, hn, Matrix.mul_assoc]

/-- With too little fuel the walk along a chain does not return. -/
theorem hwtHelper_chain_outOfFuel (M : ScalarFns R) (h : Heap R) :
    ∀ (l : List Nat) (a : Nat) (fuel : Nat) (m : Mat4 R),
      ParentChain h (a :: l) → fuel ≤ l.length →
      hwtHelper M h fuel a m = .error .outOfFuel := by
  intro l
  induction l with
  | nil =>
    intro a fuel m _ hf
    have : fuel = 0 := by simpa using hf
    subst this
    rfl
  | cons b rest ih =>
    intro a fuel m hc hf
    obtain ⟨n, hn, hp⟩ := parentChain_head hc
    cases fuel with
    | zero => rfl
    | succ f =>
      simp only [List.head?_cons] at hp
      have hf2 : f ≤ rest.length := by simpa using hf
      simp only [hwtHelper, hn, hp]
      exact ih b f _ (parentChain_tail hc) hf2

/-- Two heaps that agree on the nodes of a chain have the same chain. -/
theorem parentChain_congr {h h2 : Heap R} :
    ∀ (l : List Nat), (∀ x ∈ l, h2.node x = h.node x) → ParentChain h l → ParentChain h2 l := by
  intro l
  induction l with
  | nil => intro _ hc; exact hc
  | cons a rest ih =>
    intro hag hc
    cases rest with
    | nil =>
      simp only [ParentChain] at hc ⊢
      rw [hag a (by simp)]; exact hc
    | cons b rest =>
      simp only [ParentChain] at hc ⊢
      refine ⟨?_, ih (fun x hx => hag x (by simp [hx])) hc.2⟩
      rw [hag a (by simp)]; exact hc.1

theorem chainTransform_congr (M : ScalarFns R) {h h2 : Heap R} :
    ∀ (l : List Nat), (∀ x ∈ l, h2.node x = h.node x) →
      chainTransform M h2 l = chainTransform M h l := by
  intro l
  induction l with
  | nil => intro _; rfl
  | cons a rest ih =>
    intro hag
    simp only [chainTransform, localAt]
    rw [ih (fun x hx => hag x (by simp [hx])), hag a (by simp)]

end

/-! ## Lemmas on heap updates -/

section
variable {R : Type}

theorem Heap.get_put (h : Heap R) (a b : Nat) (o : Obj R) :
    (h.put a o).get b = if a = b ∧ a < h.length then some o else h.get b := by
  unfold Heap.put Heap.get
  by_cases hab : a = b
  · subst hab
    by_cases hl : a < h.length
    · simp [List.getD_eq_getElem?_getD, hl]
    · have h1 : (List.set h a (some o))[a]? = none :=
        List.getElem?_eq_none (by simp; omega)
      have h2 : h[a]? = none := List.getElem?_eq_none (by omega)
      simp [List.getD_eq_getElem?_getD, hl, h1, h2]
  · simp [List.getD_eq_getElem?_getD, hab, List.getElem?_set_ne hab]

theorem Heap.get_lt {h : Heap R} {a : Nat} {o : Obj R} (hg : h.get a = some o) :
    a < h.length := by
  unfold Heap.get at hg
  by_contra hl
  rw [List.getD_eq_default _ _ (by omega)] at hg
  cases hg

theorem Obj.base_mapBase (f : ComplexRenderable R → ComplexRenderable R) (o : Obj R) :
    (o.mapBase f).base = o.base.map f := by
  cases o <;> rfl

/-- A base-class setter called on a live node succeeds. -/
theorem Heap.update_ok {h : Heap R} {a : Nat} {n : ComplexRenderable R}
    (hn : h.node a = some n) (f : ComplexRenderable R → ComplexRenderable R) :
    ∃ h2, h.update a f = .ok h2 := by
  unfold Heap.node at hn
  cases hg : h.get a with
  | none => simp [hg] at hn
  | some o =>
    have hb : o.base = some n := by simpa [hg] using hn
    exact ⟨h.put a (o.mapBase f), by simp [Heap.update, hg, hb]⟩

/-- A base-class setter leaves every other node as it was. -/
theorem Heap.node_update_ne {h h2 : Heap R} {a : Nat}
    {f : ComplexRenderable R → ComplexRenderable R} (hu : h.update a f = .ok h2)
    {b : Nat} (hb : b ≠ a) : h2.node b = h.node b := by
  unfold Heap.update at hu
  cases hg : h.get a with
  | none => simp [hg] at hu
  | some o =>
    simp only [hg] at hu
    split at hu
    · cases hu
      simp [Heap.node, Heap.get_put, Ne.symm hb]
    · cases hu

/-- A base-class setter rewrites the node it is called on. -/
theorem Heap.node_update_self {h h2 : Heap R} {a : Nat}
    {f : ComplexRenderable R → ComplexRenderable R} (hu : h.update a f = .ok h2) :
    h2.node a = (h.node a).map f := by
  unfold Heap.update at hu
  cases hg : h.get a with
  | none => simp [hg] at hu
  | some o =>
    simp only [hg] at hu
    split at hu
    · cases hu
      simp [Heap.node, Heap.get_put, Heap.get_lt hg, hg, Obj.base_mapBase]
    · cases hu

end

/-! ## The hierarchical transform -/

section
variable {R : Type} [CommRing R]

/-- The walk from the head of a chain returns the chain's product. -/
theorem getHierarchicalWorldTransform_chain (M : ScalarFns R) (h : Heap R) (a : Nat)
    (l : List Nat) (hc : ParentChain h (a :: l)) (fuel : Nat) (hf : l.length < fuel) :
    getHierarchicalWorldTransform M h fuel a = .ok (chainTransform M h (a :: l)) := by
  unfold getHierarchicalWorldTransform
  rw [hwtHelper_chain M h l a fuel 1 hc hf, Matrix.mul_one]

/-- A node whose parent heads a chain heads the chain extended by itself. -/
theorem parentChain_cons {h : Heap R} {N P : Nat} {rest : List Nat} {nN : ComplexRenderable R}
    (hN : h.node N = some nN) (hP : nN.parent = some P) (hc : ParentChain h (P :: rest)) :
    ParentChain h (N :: P :: rest) := by
  simp only [ParentChain]
  exact ⟨by simp [hN, hP], hc⟩

/-- C1: for a node `N` whose parent is `P`, `P` heading a finite parent chain, and with enough
fuel for both walks, both evaluations return and
`getHierarchicalWorldTransform(N) = getHierarchicalWorldTransform(P) * getWorldTransform(N)`. -/
theorem hierarchical_eq_parent_mul_local (M : ScalarFns R) (h : Heap R) (N P : Nat)
    (rest : List Nat) (nN : ComplexRenderable R)
    (hN : h.node N = some nN) (hP : nN.parent = some P) (hc : ParentChain h (P :: rest))
    (fP fN : Nat) (hfP : rest.length < fP) (hfN : rest.length + 1 < fN) :
    ∃ X, getHierarchicalWorldTransform M h fP P = .ok X ∧
      getHierarchicalWorldTransform M h fN N = .ok (X * nN.getWorldTransform M) := by
  refine ⟨chainTransform M h (P :: rest), ?_, ?_⟩
  · exact getHierarchicalWorldTransform_chain M h P rest hc fP hfP
  · rw [getHierarchicalWorldTransform_chain M h N (P :: rest) (parentChain_cons hN hP hc) fN
      (by simpa using hfN)]
    simp [chainTransform, localAt, hN]

/-- C2: for a node with no parent, whatever its position, angles and scales,
`getHierarchicalWorldTransform` returns its local transform `getWorldTransform`. -/
theorem hierarchical_eq_local_of_no_parent (M : ScalarFns R) (h : Heap R) (N : Nat)
    (nN : ComplexRenderable R) (hN : h.node N = some nN) (hP : nN.parent = none)
    (fuel : Nat) (hf : 0 < fuel) :
    getHierarchicalWorldTransform M h fuel N = .ok (nN.getWorldTransform M) := by
  cases fuel with
  | zero => exact absurd hf (by decide)
  | succ f => simp [getHierarchicalWorldTransform, hwtHelper, hN, hP]

/-- C3: attachment.  After `R->setParent(Q)`, where `Q` heads a parent chain that does not
pass through `R`: the call succeeds; every node whose parent chain does not contain `R` has
the same hierarchical transform as before, at every fuel; and the hierarchical transform of
`R`, evaluated on the new heap with no other call in between, is
`getHierarchicalWorldTransform(Q) * getWorldTransform(R)`. -/
theorem setParent_attachment (M : ScalarFns R) (h : Heap R) (Rn Q : Nat)
    (nR : ComplexRenderable R) (restQ : List Nat)
    (hR : h.node Rn = some nR) (hcQ : ParentChain h (Q :: restQ)) (hQ : Rn ∉ Q :: restQ) :
    ∃ h2, h.update Rn (fun n => n.setParent (some Q)) = .ok h2 ∧
      (∀ (X : Nat) (restX : List Nat), ParentChain h (X :: restX) → Rn ∉ X :: restX →
        ParentChain h2 (X :: restX) ∧
        ∀ fuel, getHierarchicalWorldTransform M h2 fuel X =
          getHierarchicalWorldTransform M h fuel X) ∧
      ∃ XQ, (∀ fuel, restQ.length < fuel →
          getHierarchicalWorldTransform M h fuel Q = .ok XQ ∧
          getHierarchicalWorldTransform M h2 fuel Q = .ok XQ) ∧
        ∀ fuel, restQ.length + 1 < fuel →
          getHierarchicalWorldTransform M h2 fuel Rn = .ok (XQ * nR.getWorldTransform M) := by
  obtain ⟨h2, hu⟩ := Heap.update_ok hR (fun n => n.setParent (some Q))
  have hframe : ∀ l : List Nat, Rn ∉ l → ∀ x ∈ l, h2.node x = h.node x := by
    intro l hl x hx
    exact Heap.node_update_ne hu (fun hxa => hl (hxa ▸ hx))
  have hsame : ∀ (X : Nat) (restX : List Nat), ParentChain h (X :: restX) → Rn ∉ X :: restX →
      ParentChain h2 (X :: restX) ∧
      ∀ fuel, getHierarchicalWorldTransform M h2 fuel X =
        getHierarchicalWorldTransform M h fuel X := by
    intro X restX hcX hX
    have hc2 := parentChain_congr (X :: restX) (hframe _ hX) hcX
    refine ⟨hc2, fun fuel => ?_⟩
    unfold getHierarchicalWorldTransform
    by_cases hf : restX.length < fuel
    · rw [hwtHelper_chain M h2 restX X fuel 1 hc2 hf, hwtHelper_chain M h restX X fuel 1 hcX hf,
        chainTransform_congr M (X :: restX) (hframe _ hX)]
    · rw [hwtHelper_chain_outOfFuel M h2 restX X fuel 1 hc2 (by omega),
        hwtHelper_chain_outOfFuel M h restX X fuel 1 hcX (by omega)]
  refine ⟨h2, hu, hsame, chainTransform M h (Q :: restQ), ?_, ?_⟩
  · intro fuel hf
    have h1 : getHierarchicalWorldTransform M h fuel Q = .ok (chainTransform M h (Q :: restQ)) := by
      unfold getHierarchicalWorldTransform
      rw [hwtHelper_chain M h restQ Q fuel 1 hcQ hf, Matrix.mul_one]
    exact ⟨h1, by rw [(hsame Q restQ hcQ hQ).2 fuel, h1]⟩
  · intro fuel hf
    have hR2 : h2.node Rn = some (nR.setParent (some Q)) := by
      rw [Heap.node_update_self hu, hR]; rfl
    have hc2 := (hsame Q restQ hcQ hQ).1
    rw [getHierarchicalWorldTransform_chain M h2 Rn (Q :: restQ)
      (parentChain_cons hR2 rfl hc2) fuel (by simpa using hf)]
    have hL : localAt M h2 Rn = nR.getWorldTransform M := by
      simp only [localAt, hR2]; rfl
    simp only [chainTransform] at hL ⊢
    rw [hL]
    have := chainTransform_congr M (Q :: restQ) (hframe _ hQ)
    simp only [chainTransform] at this
    rw [this]

end

/-! ## Pure translations -/

section
variable {R : Type} [CommRing R]

/-- With zero angles the rotation `rz * ry * rx` is the identity. -/
theorem getRotation_zero (M : ScalarFns R) (hc : M.cos 0 = 1) (hs : M.sin 0 = 0)
    (n : ComplexRenderable R) (ha : n.angles = Vec3.splat 0) :
    n.getRotation M = 1 := by
  simp [ComplexRenderable.getRotation, ha, Vec3.splat, rotate_one_zero M hc hs]

/-- With unit scales the scaling is the identity. -/
theorem getScaling_one (n : ComplexRenderable R) (hs : n.scales = Vec3.splat 1) :
    n.getScaling = 1 := by
  simp [ComplexRenderable.getScaling, hs, scale_one_one]

/-- With zero angles and unit scales the local transform is the translation by `position`. -/
theorem getWorldTransform_pure_translation (M : ScalarFns R) (hc : M.cos 0 = 1)
    (hs : M.sin 0 = 0) (n : ComplexRenderable R) (ha : n.angles = Vec3.splat 0)
    (hsc : n.scales = Vec3.splat 1) :
    n.getWorldTransform M = translate 1 n.position := by
  simp [ComplexRenderable.getWorldTransform, getRotation_zero M hc hs n ha,
    getScaling_one n hsc, ComplexRenderable.getTranslation]

theorem chainTransform_translations (M : ScalarFns R) (hc : M.cos 0 = 1) (hs : M.sin 0 = 0)
    (h : Heap R) (t : Vec3 R) :
    ∀ l : List Nat, (∀ x ∈ l, IsTranslationNode h t x) →
      chainTransform M h l = translate 1 (Vec3.smul (l.length : R) t) := by
  intro l
  induction l with
  | nil =>
    intro _
    simp only [chainTransform, List.length_nil, Nat.cast_zero, Vec3.smul, zero_mul]
    exact translate_one_zero.symm
  | cons a rest ih =>
    intro hall
    obtain ⟨n, hn, hp, ha, hsc⟩ := hall a (by simp)
    rw [chainTransform, ih (fun x hx => hall x (by simp [hx]))]
    simp only [localAt, hn]
    rw [getWorldTransform_pure_translation M hc hs n ha hsc, hp,
      translate_one_mul_translate_one]
    simp only [Vec3.add, Vec3.smul, List.length_cons, Nat.cast_add, Nat.cast_one]
    ring_nf

/-- C4: in a chain of `k` nodes, the first parentless and each later one the child of the
previous, every node having position `t`, zero angles and unit scales, the hierarchical
transform of the deepest node is the translation by `k * t`. -/
theorem chain_of_translations (M : ScalarFns R) (hc : M.cos 0 = 1) (hs : M.sin 0 = 0)
    (h : Heap R) (t : Vec3 R) (a : Nat) (l : List Nat) (k : Nat) (hk : (a :: l).length = k)
    (hch : ParentChain h (a :: l)) (hall : ∀ x ∈ a :: l, IsTranslationNode h t x)
    (fuel : Nat) (hf : k ≤ fuel) :
    getHierarchicalWorldTransform M h fuel a = .ok (translate 1 (Vec3.smul (k : R) t)) := by
  subst hk
  rw [getHierarchicalWorldTransform_chain M h a l hch fuel (by simpa using hf),
    chainTransform_translations M hc hs h t (a :: l) hall]

end

/-! ## Concrete scenarios -/

section
variable {R : Type} [CommRing R]

/-- C6: a freshly constructed node (position 0, angles 0, scales 1, no parent) has the
identity as hierarchical transform; its translation, its zero-angle rotation `rz * ry * rx`
and its unit scaling are each the identity. -/
theorem fresh_node_identity (M : ScalarFns R) (hc : M.cos 0 = 1) (hs : M.sin 0 = 0)
    (h : Heap R) (a : Nat) (ha : h.node a = some ComplexRenderable.new)
    (fuel : Nat) (hf : 0 < fuel) :
    getHierarchicalWorldTransform M h fuel a = .ok 1 ∧
      (ComplexRenderable.new : ComplexRenderable R).getTranslation = 1 ∧
      (ComplexRenderable.new : ComplexRenderable R).getRotation M = 1 ∧
      (ComplexRenderable.new : ComplexRenderable R).getScaling = 1 := by
  have h1 : (ComplexRenderable.new : ComplexRenderable R).getTranslation = 1 := by
    simp [ComplexRenderable.getTranslation, ComplexRenderable.new, translate_one_zero]
  have h2 : (ComplexRenderable.new : ComplexRenderable R).getRotation M = 1 :=
    getRotation_zero M hc hs _ rfl
  have h3 : (ComplexRenderable.new : ComplexRenderable R).getScaling = 1 :=
    getScaling_one _ rfl
  refine ⟨?_, h1, h2, h3⟩
  cases fuel with
  | zero => exact absurd hf (by decide)
  | succ f =>
    simp [getHierarchicalWorldTransform, hwtHelper, ha, ComplexRenderable.getWorldTransform,
      h1, h2, h3]
    rfl

/-- C7: a parentless node with position `p`, zero angles and unit scales has a hierarchical
transform whose translation column is `p`. -/
theorem root_translation_column (M : ScalarFns R) (hc : M.cos 0 = 1) (hs : M.sin 0 = 0)
    (h : Heap R) (a : Nat) (p : Vec3 R)
    (ha : h.HasNode a p (Vec3.splat 0) (Vec3.splat 1) none) (fuel : Nat) (hf : 0 < fuel) :
    ∃ X, getHierarchicalWorldTransform M h fuel a = .ok X ∧ translationColumn X = p := by
  obtain ⟨n, hn, hp, hang, hsc, hpar⟩ := ha
  refine ⟨translate 1 p, ?_, translationColumn_translate_one p⟩
  cases fuel with
  | zero => exact absurd hf (by decide)
  | succ f =>
    simp [getHierarchicalWorldTransform, hwtHelper, hn, hpar,
      getWorldTransform_pure_translation M hc hs n hang hsc, hp]

end

/-- C5: a wheel at position (-1.5, 0.5, -1.5) whose parent is a plank at (0, 0, 0) whose
parent is a parentless board at (10, 0, 0), all with zero angles and unit scales: the
translation column of the wheel's hierarchical transform is (8.5, 0.5, -1.5). -/
theorem skateboard_wheel_translation (M : ScalarFns ℚ) (hc : M.cos 0 = 1) (hs : M.sin 0 = 0)
    (h : Heap ℚ) (wheel plank board : Nat)
    (hW : h.HasNode wheel ⟨-1.5, 0.5, -1.5⟩ (Vec3.splat 0) (Vec3.splat 1) (some plank))
    (hP : h.HasNode plank ⟨0, 0, 0⟩ (Vec3.splat 0) (Vec3.splat 1) (some board))
    (hB : h.HasNode board ⟨10, 0, 0⟩ (Vec3.splat 0) (Vec3.splat 1) none)
    (fuel : Nat) (hf : 3 ≤ fuel) :
    ∃ X, getHierarchicalWorldTransform M h fuel wheel = .ok X ∧
      translationColumn X = ⟨8.5, 0.5, -1.5⟩ := by
  obtain ⟨nW, hnW, hpW, haW, hsW, hparW⟩ := hW
  obtain ⟨nP, hnP, hpP, haP, hsP, hparP⟩ := hP
  obtain ⟨nB, hnB, hpB, haB, hsB, hparB⟩ := hB
  have hch : ParentChain h [wheel, plank, board] := by
    simp [ParentChain, hnW, hnP, hnB, hparW, hparP, hparB]
  refine ⟨_, getHierarchicalWorldTransform_chain M h wheel [plank, board] hch fuel
    (by simpa using hf), ?_⟩
  simp only [chainTransform, localAt, hnW, hnP, hnB, Matrix.one_mul,
    getWorldTransform_pure_translation M hc hs _ haW hsW,
    getWorldTransform_pure_translation M hc hs _ haP hsP,
    getWorldTransform_pure_translation M hc hs _ haB hsB, hpW, hpP, hpB,
    translate_one_mul_translate_one, translationColumn_translate_one, Vec3.add]
  norm_num

/-! ## Rendering a drawable-wrapping node -/

section
variable {R : Type} [CommRing R]

/-- C10 (amended): for a drawable-wrapping node on a finite parent chain, `render` returns
and emits exactly: the MODEL uniform, the selection of texture unit 0, a bind of
`getTexture()` whether or not the node is textured, `TEXTURE_MAP = 0`, `TEXTURE_PRESENT`
equal to 1 when `isTextured()` and 0 when not, and the payload's draw. -/
theorem simple_render_trace (M : ScalarFns R) (h : Heap R) (this r : Nat)
    (base : ComplexRenderable R) (c e : Vec3 R) (rest : List Nat)
    (hthis : h.get this = some (.simple base (some r)))
    (hr : h.get r = some (.renderable c e))
    (hch : ParentChain h (this :: rest)) (fuel : Nat) (hf : rest.length < fuel)
    (shader : Nat) :
    ∃ model, getHierarchicalWorldTransform M h fuel this = .ok model ∧
      SimpleComplexRenderable.render M h fuel this shader =
        .ok [ .setUniformMat4 shader .MODEL model,
              .glActiveTexture 0,
              .glBindTexture base.getTexture,
              .setUniformInt shader .TEXTURE_MAP 0,
              .setUniformInt shader .TEXTURE_PRESENT (if base.isTextured then 1 else 0),
              .draw r ] := by
  have hm := getHierarchicalWorldTransform_chain M h this rest hch fuel hf
  refine ⟨_, hm, ?_⟩
  simp [SimpleComplexRenderable.render, hthis, hr, hm]

end

/-- C10 (counterexample): the node at address 1 of `plainHeap` is not textured, yet the
trace of its `render` contains a texture bind (of handle 0), next to `TEXTURE_PRESENT = 0`. -/
theorem simple_render_binds_when_untextured :
    ∃ base r trace, plainHeap.get 1 = some (.simple base r) ∧ base.isTextured = false ∧
      SimpleComplexRenderable.render ratFns plainHeap 1 1 0 = .ok trace ∧
      trace.any GLCmd.isBind = true ∧
      trace.get? 2 = some (.glBindTexture 0) ∧
      trace.get? 4 = some (.setUniformInt 0 .TEXTURE_PRESENT 0) :=
  ⟨_, _, _, rfl, rfl, rfl, rfl, rfl, rfl⟩

/-- C10 (witness): the amended trace at the untextured node of `plainHeap`. -/
theorem simple_render_trace_witness :
    ∃ model, getHierarchicalWorldTransform ratFns plainHeap 1 1 = .ok model ∧
      SimpleComplexRenderable.render ratFns plainHeap 1 1 7 =
        .ok [ .setUniformMat4 7 .MODEL model,
              .glActiveTexture 0,
              .glBindTexture 0,
              .setUniformInt 7 .TEXTURE_MAP 0,
              .setUniformInt 7 .TEXTURE_PRESENT 0,
              .draw 0 ] :=
  simple_render_trace ratFns plainHeap 1 0 _ _ _ [] rfl rfl rfl 1 (by decide) 7

/-! ## The general theorems at concrete scenes -/

theorem ratFns_cos_zero : ratFns.cos 0 = 1 := by norm_num [ratFns]

theorem ratFns_sin_zero : ratFns.sin 0 = 0 := by norm_num [ratFns]

/-- C1 (witness): wheel 13 of `boardHeap`, whose parent is the plank 11, child of the board 9. -/
theorem hierarchical_eq_parent_mul_local_witness :
    ∃ X, getHierarchicalWorldTransform ratFns boardHeap 2 11 = .ok X ∧
      getHierarchicalWorldTransform ratFns boardHeap 3 13 =
        .ok (X * ComplexRenderable.getWorldTransform ratFns
          { position := Vec3.add (Vec3.splat 0) ⟨-1.5, 0.5, -1.5⟩, angles := Vec3.splat 0,
            scales := Vec3.splat 1, parent := some 11, texture := 0,
            textured := texturedDefault }) :=
  hierarchical_eq_parent_mul_local ratFns boardHeap 13 11 [9] _ rfl rfl ⟨rfl, rfl⟩ 2 3
    (by decide) (by decide)

/-- C2 (witness): the parentless node 1 of `plainHeap`. -/
theorem hierarchical_eq_local_of_no_parent_witness :
    getHierarchicalWorldTransform ratFns plainHeap 1 1 =
      .ok (ComplexRenderable.getWorldTransform ratFns
        { position := ⟨-4, 1, -2⟩, angles := Vec3.splat 0, scales := Vec3.splat 1,
          parent := none, texture := 0, textured := false }) :=
  hierarchical_eq_local_of_no_parent ratFns plainHeap 1 _ rfl rfl 1 (by decide)

/-- C3 (witness): in `boardHeap` the character 0 is re-attached from the board 9 to the
plank 11, whose chain 11, 9 does not pass through 0. -/
theorem setParent_attachment_witness :
    ∃ h2, boardHeap.update 0 (fun n => n.setParent (some 11)) = .ok h2 ∧
      (∀ (X : Nat) (restX : List Nat), ParentChain boardHeap (X :: restX) → 0 ∉ X :: restX →
        ParentChain h2 (X :: restX) ∧
        ∀ fuel, getHierarchicalWorldTransform ratFns h2 fuel X =
          getHierarchicalWorldTransform ratFns boardHeap fuel X) ∧
      ∃ XQ, (∀ fuel, [9].length < fuel →
          getHierarchicalWorldTransform ratFns boardHeap fuel 11 = .ok XQ ∧
          getHierarchicalWorldTransform ratFns h2 fuel 11 = .ok XQ) ∧
        ∀ fuel, [9].length + 1 < fuel →
          getHierarchicalWorldTransform ratFns h2 fuel 0 =
            .ok (XQ * ComplexRenderable.getWorldTransform ratFns
              ((ComplexRenderable.new : ComplexRenderable ℚ).setParent (some 9))) :=
  setParent_attachment ratFns boardHeap 0 11 _ [9] rfl ⟨rfl, rfl⟩ (by decide)

/-- C4 (witness): the three-node chain of `chainHeap`, every node at (1, 2, 3). -/
theorem chain_of_translations_witness :
    getHierarchicalWorldTransform ratFns chainHeap 3 2 =
      .ok (translate 1 (Vec3.smul ((3 : ℕ) : ℚ) ⟨1, 2, 3⟩)) :=
  chain_of_translations ratFns ratFns_cos_zero ratFns_sin_zero chainHeap ⟨1, 2, 3⟩ 2 [1, 0] 3
    rfl ⟨rfl, rfl, rfl⟩
    (by
      intro x hx
      simp only [List.mem_cons, List.mem_singleton, List.not_mem_nil, or_false] at hx
      rcases hx with rfl | rfl | rfl <;> exact ⟨_, rfl, rfl, rfl, rfl⟩)
    3 (by decide)

/-- C5 (witness): wheel 13, plank 11 and board 9 of the heap the `Skateboard` constructor
builds, after the board is moved to (10, 0, 0). -/
theorem skateboard_wheel_translation_witness :
    ∃ X, getHierarchicalWorldTransform ratFns movedBoardHeap 3 13 = .ok X ∧
      translationColumn X = ⟨8.5, 0.5, -1.5⟩ :=
  skateboard_wheel_translation ratFns ratFns_cos_zero ratFns_sin_zero movedBoardHeap 13 11 9
    ⟨_, rfl, by norm_num [Vec3.add, Vec3.splat, ComplexRenderable.getPosition,
      ComplexRenderable.setPosition, ComplexRenderable.setParent, ComplexRenderable.new],
      rfl, rfl, rfl⟩
    ⟨_, rfl, rfl, rfl, rfl, rfl⟩
    ⟨_, rfl, rfl, rfl, rfl, rfl⟩ 3 (by decide)

/-- C6 (witness): the node built by `new SimpleComplexRenderable(nullptr)` on the empty heap. -/
theorem fresh_node_identity_witness :
    getHierarchicalWorldTransform ratFns freshHeap 1 0 = .ok 1 ∧
      (ComplexRenderable.new : ComplexRenderable ℚ).getTranslation = 1 ∧
      (ComplexRenderable.new : ComplexRenderable ℚ).getRotation ratFns = 1 ∧
      (ComplexRenderable.new : ComplexRenderable ℚ).getScaling = 1 :=
  fresh_node_identity ratFns ratFns_cos_zero ratFns_sin_zero freshHeap 0 rfl 1 (by decide)

/-- C7 (witness): the parentless node of `plainHeap`, at position (-4, 1, -2). -/
theorem root_translation_column_witness :
    ∃ X, getHierarchicalWorldTransform ratFns plainHeap 1 1 = .ok X ∧
      translationColumn X = ⟨-4, 1, -2⟩ :=
  root_translation_column ratFns ratFns_cos_zero ratFns_sin_zero plainHeap 1 ⟨-4, 1, -2⟩
    ⟨_, rfl, rfl, rfl, rfl, rfl⟩ 1 (by decide)

/-! ## Relocation of a block of objects -/

section
variable {R : Type}

theorem Heap.shift_length (n : Nat) (l : Heap R) : (Heap.shift n l).length = l.length := by
  simp [Heap.shift]

theorem Heap.get_shift (n : Nat) (l : Heap R) (k : Nat) :
    (Heap.shift n l).get k = (l.get k).map (Obj.shift n) := by
  unfold Heap.get Heap.shift
  simp only [List.getD_eq_getElem?_getD, List.getElem?_map]
  cases l[k]? <;> rfl

theorem Heap.get_append_add (h0 l : Heap R) (k : Nat) :
    Heap.get (h0 ++ l) (h0.length + k) = l.get k := by
  simp [Heap.get, List.getD_eq_getElem?_getD, List.getElem?_append_right]

theorem Heap.get_append_lt (h0 l : Heap R) {a : Nat} (ha : a < h0.length) :
    Heap.get (h0 ++ l) a = h0.get a := by
  simp [Heap.get, List.getD_eq_getElem?_getD, List.getElem?_append_left ha]

theorem Heap.free_append_add (h0 l : Heap R) (k : Nat) :
    Heap.free (h0 ++ l) (h0.length + k) = h0 ++ l.free k := by
  simp [Heap.free, List.set_append]

theorem Heap.get_relocate (h0 l : Heap R) (k : Nat) :
    (h0.relocate l).get (h0.length + k) = (l.get k).map (Obj.shift h0.length) := by
  rw [Heap.relocate, Heap.get_append_add, Heap.get_shift]

theorem Heap.free_relocate (h0 l : Heap R) (k : Nat) :
    (h0.relocate l).free (h0.length + k) = h0.relocate (l.free k) := by
  rw [Heap.relocate, Heap.free_append_add]
  simp [Heap.relocate, Heap.shift, Heap.free, List.map_set]

theorem Obj.dtorDeletes_shift (n : Nat) (o : Obj R) :
    (o.shift n).dtorDeletes = o.dtorDeletes.map (shiftPtr n) := by
  cases o <;> simp [Obj.shift, Obj.dtorDeletes]

theorem Obj.base_shift (n : Nat) (o : Obj R) :
    (o.shift n).base = o.base.map (ComplexRenderable.shift n) := by
  cases o <;> rfl

/-- Deleting inside a relocated block is the relocation of deleting inside the block. -/
theorem delete_relocate (h0 : Heap R) :
    ∀ (fuel : Nat) (l : Heap R) (p : Ptr),
      delete fuel (h0.relocate l) (shiftPtr h0.length p) =
        match delete fuel l p with
        | .ok (l2, t) => .ok (h0.relocate l2, t.map fun a => h0.length + a)
        | .error e => .error e := by
  intro fuel
  induction fuel with
  | zero =>
    intro l p
    cases p <;> simp [delete, shiftPtr]
  | succ f ih =>
    have hlist : ∀ (ps : List Ptr) (l : Heap R),
        deleteList (delete f) (h0.relocate l) (ps.map (shiftPtr h0.length)) =
          match deleteList (delete f) l ps with
          | .ok (l2, t) => .ok (h0.relocate l2, t.map fun a => h0.length + a)
          | .error e => .error e := by
      intro ps
      induction ps with
      | nil => intro l; simp [deleteList]
      | cons q qs ihq =>
        intro l
        simp only [List.map_cons, deleteList, ih l q]
        cases hq : delete f l q with
        | error e => simp
        | ok r =>
          obtain ⟨l1, t1⟩ := r
          simp only [ihq l1]
          cases hqs : deleteList (delete f) l1 qs with
          | error e => simp
          | ok r2 =>
            obtain ⟨l2, t2⟩ := r2
            simp
    intro l p
    cases p with
    | none => simp [delete, shiftPtr]
    | some a =>
      simp only [shiftPtr, Option.map_some', delete, Heap.get_relocate]
      cases hg : l.get a with
      | none => simp
      | some o =>
        simp only [Option.map_some', Obj.dtorDeletes_shift, hlist]
        cases hd : deleteList (delete f) l o.dtorDeletes with
        | error e => simp
        | ok r =>
          obtain ⟨l1, t1⟩ := r
          simp [Heap.free_relocate]

end

section
variable {R : Type}

theorem statesAfter_relocate (h0 : Heap R) :
    ∀ (t : List Nat) (l : Heap R),
      statesAfter (h0.relocate l) (t.map fun a => h0.length + a) =
        (statesAfter l t).map fun s => h0.relocate s := by
  intro t
  induction t with
  | nil => intro l; rfl
  | cons a rest ih =>
    intro l
    simp only [List.map_cons, statesAfter, Heap.free_relocate, ih]

theorem destroySteps_relocate (h0 l : Heap R) (fuel : Nat) (p : Ptr) :
    destroySteps fuel (h0.relocate l) (shiftPtr h0.length p) =
      match destroySteps fuel l p with
      | .ok states => .ok (states.map fun s => h0.relocate s)
      | .error e => .error e := by
  unfold destroySteps
  rw [delete_relocate]
  cases hd : delete fuel l p with
  | error e => rfl
  | ok r =>
    obtain ⟨l1, t1⟩ := r
    simp [statesAfter_relocate]

theorem Heap.node_relocate (h0 l : Heap R) (k : Nat) :
    (h0.relocate l).node (h0.length + k) = (l.node k).map (ComplexRenderable.shift h0.length) := by
  unfold Heap.node
  rw [Heap.get_relocate]
  cases l.get k with
  | none => rfl
  | some o => simp [Obj.base_shift]

theorem Heap.dangles_relocate (h0 l : Heap R) (k : Nat) :
    (h0.relocate l).dangles (h0.length + k) = l.dangles k := by
  unfold Heap.dangles
  rw [Heap.node_relocate]
  cases hn : l.node k with
  | none => rfl
  | some n =>
    cases hp : n.parent with
    | none => simp [ComplexRenderable.shift, shiftPtr, hp]
    | some p =>
      simp only [Option.map_some', ComplexRenderable.shift, shiftPtr, hp, Heap.get_relocate]
      cases l.get p <;> rfl

theorem Heap.get_isSome_lt {h : Heap R} {a : Nat} (hs : (h.get a).isSome = true) :
    a < h.length := by
  cases hg : h.get a with
  | none => simp [hg] at hs
  | some o => exact Heap.get_lt hg

theorem Heap.dangles_append_lt (h0 l : Heap R) (hclean : h0.noDanglingParent = true)
    {a : Nat} (ha : a < h0.length) : (h0 ++ l).dangles a = false := by
  have h1 : h0.dangles a = false := by
    have : h0.danglingNodes = [] := by
      simpa [Heap.noDanglingParent, List.isEmpty_iff] using hclean
    have hm : a ∉ h0.danglingNodes := by simp [this]
    simpa [Heap.danglingNodes, ha] using hm
  unfold Heap.dangles Heap.node at h1 ⊢
  rw [Heap.get_append_lt h0 l ha]
  cases hg : (h0.get a).bind Obj.base with
  | none => rfl
  | some n =>
    cases hp : n.parent with
    | none => simp [hp]
    | some p =>
      simp only [hg, hp] at h1 ⊢
      have hs : (h0.get p).isSome = true := by simpa using h1
      rw [Heap.get_append_lt h0 l (Heap.get_isSome_lt hs)]
      exact h1

/-- Behind a heap without dangling parents, the dangling nodes of a relocated block are the
relocated dangling nodes of the block. -/
theorem Heap.danglingNodes_relocate (h0 l : Heap R) (hclean : h0.noDanglingParent = true) :
    (h0.relocate l).danglingNodes = l.danglingNodes.map fun a => h0.length + a := by
  unfold Heap.danglingNodes
  have hlen : (h0.relocate l).length = h0.length + l.length := by
    simp [Heap.relocate, Heap.shift_length]
  rw [hlen, List.range_eq_range', Nat.add_comm h0.length l.length,
    ← List.range'_append_1 0 h0.length l.length, List.filter_append]
  simp only [zero_add]
  have h1 : (List.range' 0 h0.length).filter (h0.relocate l).dangles = [] := by
    rw [List.filter_eq_nil_iff]
    intro a ha
    have := Heap.dangles_append_lt h0 (Heap.shift h0.length l) hclean
      (by simpa using ha : a < h0.length)
    simp [Heap.relocate, this]
  rw [h1, List.nil_append]
  have h2 : List.range' h0.length l.length = (List.range l.length).map fun a => h0.length + a := by
    rw [List.range_eq_range', List.map_add_range']
    simp
  rw [h2, List.filter_map]
  congr 1
  apply List.filter_congr
  intro k _
  simp [Function.comp, Heap.dangles_relocate]

end

/-! ## The constructors on an arbitrary heap -/

section
variable {R : Type}

theorem Heap.alloc_append (h0 l : Heap R) (o : Obj R) :
    Heap.alloc (h0 ++ l) o = (h0 ++ (l ++ [some o]), h0.length + l.length) := by
  simp [Heap.alloc]

theorem Heap.alloc_base (h0 : Heap R) (o : Obj R) :
    Heap.alloc h0 o = (h0 ++ [some o], h0.length + 0) := by
  simp [Heap.alloc]

theorem Heap.getD_append_add (h0 l : Heap R) (k : Nat) :
    Heap.get (h0 ++ l) (h0.length + k) = l.getD k none := by
  simp [Heap.get, List.getD_eq_getElem?_getD, List.getElem?_append_right]

theorem Heap.getD_append_len (h0 l : Heap R) :
    Heap.get (h0 ++ l) h0.length = l.getD 0 none := by
  simpa using Heap.getD_append_add h0 l 0

theorem Heap.put_append_add (h0 l : Heap R) (k : Nat) (o : Obj R) :
    Heap.put (h0 ++ l) (h0.length + k) o = h0 ++ l.set k (some o) := by
  simp [Heap.put, List.set_append]

theorem Heap.put_append_len (h0 l : Heap R) (o : Obj R) :
    Heap.put (h0 ++ l) h0.length o = h0 ++ l.set 0 (some o) := by
  simpa using Heap.put_append_add h0 l 0 o
end

section
variable {R : Type} [Field R]
theorem Glyph.new_relocate (g : Glyph) (h0 : Heap R) :
    g.new h0 = .ok (h0.relocate (glyphBlock g), h0.length) := by
  cases g <;>
  · conv_lhs =>
      simp [Glyph.new, CharB.new, CharO.new, CharU.new, newPart, createCuboid,
        SimpleComplexRenderable.new, Heap.alloc_base, Heap.alloc_append, Heap.update, Heap.modify,
        Heap.getD_append_add, Heap.put_append_add, Heap.getD_append_len, Heap.put_append_len,
        bind, Except.bind, pure, Except.pure, Obj.base, Obj.mapBase, add_assoc]
    simp [Glyph.new, glyphBlock, heapOf, Heap.relocate, Heap.shift, Obj.shift, shiftPtr,
      ComplexRenderable.shift, CharB.new, CharO.new, CharU.new, newPart, createCuboid,
      SimpleComplexRenderable.new, Heap.alloc, Heap.update, Heap.modify, Heap.get, Heap.put,
      bind, Except.bind, pure, Except.pure, Obj.base, Obj.mapBase,
      ComplexRenderable.setParent, ComplexRenderable.new]

theorem board_new_relocate (g : Glyph) (h0 : Heap R) :
    Skateboard.new (h0.relocate (glyphBlock g)) (some h0.length) =
      .ok (h0.relocate (boardBlock g), h0.length + (glyphBlock g : Heap R).length) := by
  cases g <;>
  · conv_lhs =>
      arg 1
      simp [Glyph.new, glyphBlock, heapOf, Heap.relocate, Heap.shift, Obj.shift, shiftPtr,
        ComplexRenderable.shift, CharB.new, CharO.new, CharU.new, newPart, createCuboid,
        SimpleComplexRenderable.new, Heap.alloc, Heap.update, Heap.modify, Heap.get, Heap.put,
        bind, Except.bind, pure, Except.pure, Obj.base, Obj.mapBase,
        ComplexRenderable.setParent, ComplexRenderable.new]
    conv_lhs =>
      simp [Skateboard.new, Skateboard.wheelLoop, Skateboard.moveWheel, Skateboard.wheel,
        Heap.updatePtr, Obj.setPlank, Obj.setWheel, newPart, createCuboid,
        SimpleComplexRenderable.new, Heap.alloc_append, Heap.update, Heap.modify,
        Heap.getD_append_add, Heap.put_append_add, Heap.getD_append_len, Heap.put_append_len,
        bind, Except.bind, pure, Except.pure, Obj.base, Obj.mapBase, add_assoc]
    simp [Glyph.new, glyphBlock, boardBlock, heapOf, Heap.relocate, Heap.shift, Obj.shift, shiftPtr,
      ComplexRenderable.shift, CharB.new, CharO.new, CharU.new, newPart, createCuboid,
      Skateboard.new, Skateboard.wheelLoop, Skateboard.moveWheel, Skateboard.wheel,
      Heap.updatePtr, Obj.setPlank, Obj.setWheel,
      SimpleComplexRenderable.new, Heap.alloc, Heap.update, Heap.modify, Heap.get, Heap.put,
      bind, Except.bind, pure, Except.pure, Obj.base, Obj.mapBase,
      ComplexRenderable.setParent, ComplexRenderable.new, ComplexRenderable.setPosition,
      ComplexRenderable.getPosition]
end

/-! ## Destruction -/

section
variable {R : Type}

/-- More fuel does not change the result of a `delete` that returned. -/
theorem delete_fuel_succ :
    ∀ (fuel : Nat) (h : Heap R) (p : Ptr) (r : Heap R × List Nat),
      delete fuel h p = .ok r → delete (fuel + 1) h p = .ok r := by
  intro fuel
  induction fuel with
  | zero =>
    intro h p r hd
    cases p with
    | none => simpa [delete] using hd
    | some a => simp [delete] at hd
  | succ f ih =>
    have hlist : ∀ (ps : List Ptr) (h : Heap R) (r : Heap R × List Nat),
        deleteList (delete f) h ps = .ok r → deleteList (delete (f + 1)) h ps = .ok r := by
      intro ps
      induction ps with
      | nil => intro h r hr; simpa [deleteList] using hr
      | cons q qs ihq =>
        intro h r hr
        simp only [deleteList] at hr ⊢
        cases hq : delete f h q with
        | error e => simp [hq] at hr
        | ok r1 =>
          obtain ⟨h1, t1⟩ := r1
          simp only [hq] at hr
          rw [ih h q _ hq]
          cases hqs : deleteList (delete f) h1 qs with
          | error e => simp [hqs] at hr
          | ok r2 =>
            obtain ⟨h2, t2⟩ := r2
            simp only [hqs] at hr
            simp only [ihq h1 _ hqs]
            exact hr
    intro h p r hd
    cases p with
    | none => simpa [delete] using hd
    | some a =>
      rw [delete] at hd ⊢
      cases hg : h.get a with
      | none => simp [hg] at hd
      | some o =>
        simp only [hg] at hd ⊢
        cases hl : deleteList (delete f) h o.dtorDeletes with
        | error e => simp [hl] at hd
        | ok r1 =>
          obtain ⟨h1, t1⟩ := r1
          simp only [hl] at hd
          simp only [hlist _ h _ hl]
          exact hd

theorem delete_fuel_le {fuel fuel2 : Nat} (hle : fuel ≤ fuel2) {h : Heap R} {p : Ptr}
    {r : Heap R × List Nat} (hd : delete fuel h p = .ok r) : delete fuel2 h p = .ok r := by
  induction hle with
  | refl => exact hd
  | step _ ih => exact delete_fuel_succ _ h p r ih

theorem destroySteps_fuel_le {fuel fuel2 : Nat} (hle : fuel ≤ fuel2) {h : Heap R} {p : Ptr}
    {states : List (Heap R)} (hd : destroySteps fuel h p = .ok states) :
    destroySteps fuel2 h p = .ok states := by
  unfold destroySteps at hd ⊢
  cases hdel : delete fuel h p with
  | error e => simp [hdel] at hd
  | ok r =>
    obtain ⟨h1, t⟩ := r
    simp only [hdel] at hd
    simp only [delete_fuel_le hle hdel]
    exact hd

theorem wheelOrphans_map (n s total : Nat) :
    (wheelOrphans s total).map (List.map fun a => n + a) = wheelOrphans (n + s) total := by
  simp [wheelOrphans, add_assoc]

end

/-- On the empty heap: no node dangles at any step of destroying a glyph, and there is one
step per object of the block. -/
theorem glyphBlock_steps (g : Glyph) :
    (match destroySteps 3 (glyphBlock g : Heap ℚ) (some 0) with
      | .ok states => some (states.length, states.map Heap.danglingNodes)
      | .error _ => none) =
      some ((glyphBlock g : Heap ℚ).length, List.replicate (glyphBlock g : Heap ℚ).length []) := by
  cases g <;> decide!

/-- On the empty heap: only the wheels dangle while a board carrying a glyph is destroyed. -/
theorem boardBlock_steps (g : Glyph) :
    (match destroySteps 4 (boardBlock g : Heap ℚ) (some (glyphBlock g : Heap ℚ).length) with
      | .ok states => some (states.length, states.map Heap.danglingNodes)
      | .error _ => none) =
      some ((boardBlock g : Heap ℚ).length,
        wheelOrphans (glyphBlock g : Heap ℚ).length (boardBlock g : Heap ℚ).length) := by
  cases g <;> decide!

/-- On the empty heap: the members of the board, and the parent of each wheel. -/
theorem boardBlock_members (g : Glyph) :
    ∃ b, (boardBlock g : Heap ℚ).get (glyphBlock g : Heap ℚ).length =
        some (.skateboard b (some ((glyphBlock g : Heap ℚ).length + 2))
          [some ((glyphBlock g : Heap ℚ).length + 4), some ((glyphBlock g : Heap ℚ).length + 6),
            some ((glyphBlock g : Heap ℚ).length + 8), some ((glyphBlock g : Heap ℚ).length + 10)]
          (some 0)) ∧
      ∀ k ∈ [4, 6, 8, 10], (boardBlock g : Heap ℚ).parentOf ((glyphBlock g : Heap ℚ).length + k) =
        some (some ((glyphBlock g : Heap ℚ).length + 2)) := by
  cases g <;> exact ⟨_, rfl, by decide!⟩

theorem Heap.relocate_length {R : Type} (h0 l : Heap R) :
    (h0.relocate l).length = h0.length + l.length := by
  simp [Heap.relocate, Heap.shift_length]

theorem Heap.noDanglingParent_iff {R : Type} (h : Heap R) :
    h.noDanglingParent = true ↔ h.danglingNodes = [] := by
  simp [Heap.noDanglingParent, List.isEmpty_iff]

theorem Heap.parentOf_relocate {R : Type} (h0 l : Heap R) (k : Nat) :
    (h0.relocate l).parentOf (h0.length + k) = (l.parentOf k).map (shiftPtr h0.length) := by
  unfold Heap.parentOf
  rw [Heap.node_relocate]
  cases l.node k <;> rfl

/-- C9 (amended): over any heap without dangling parents.  (1) At every step of destroying a
glyph assembly (`CharB`, `CharO`, `CharU`) every live node's parent is `nullptr` or live.
(2) Destroying a `Skateboard` that carries such a glyph releases the plank (second release,
after the plank's payload) while the four wheels are live and have it as parent: from then
on the wheels not yet released are exactly the nodes with a destroyed parent, and from the
release of the last wheel to the end no node has one. -/
theorem destroy_dangling_parents (h0 : Heap ℚ) (hclean : h0.noDanglingParent = true)
    (g : Glyph) (fuel : Nat) (hf : 4 ≤ fuel) :
    (∃ h states, g.new h0 = .ok (h, h0.length) ∧
      destroySteps fuel h (some h0.length) = .ok states ∧
      states.length = h.length - h0.length ∧
      ∀ s ∈ states, s.noDanglingParent = true) ∧
    (∃ h1 h states b, g.new h0 = .ok (h1, h0.length) ∧
      Skateboard.new h1 (some h0.length) = .ok (h, h1.length) ∧
      h.get h1.length = some (.skateboard b (some (h1.length + 2))
        [some (h1.length + 4), some (h1.length + 6), some (h1.length + 8),
          some (h1.length + 10)] (some h0.length)) ∧
      (∀ k ∈ [4, 6, 8, 10], h.parentOf (h1.length + k) = some (some (h1.length + 2))) ∧
      destroySteps fuel h (some h1.length) = .ok states ∧
      states.length = h.length - h0.length ∧
      states.map Heap.danglingNodes = wheelOrphans h1.length states.length) := by
  constructor
  · refine ⟨h0.relocate (glyphBlock g), ?_⟩
    have hb := glyphBlock_steps g
    cases hd : destroySteps 3 (glyphBlock g : Heap ℚ) (some 0) with
    | error e => simp [hd] at hb
    | ok states0 =>
      simp only [hd, Option.some.injEq, Prod.mk.injEq] at hb
      have hrel := destroySteps_relocate h0 (glyphBlock g) fuel (some 0)
      rw [destroySteps_fuel_le (by omega : 3 ≤ fuel) hd] at hrel
      simp only [shiftPtr, Option.map_some', add_zero] at hrel
      refine ⟨_, Glyph.new_relocate g h0, hrel, ?_, ?_⟩
      · simp [Heap.relocate_length, hb.1]
      · intro s hs
        obtain ⟨s0, hs0, rfl⟩ := List.mem_map.1 hs
        rw [Heap.noDanglingParent_iff, Heap.danglingNodes_relocate h0 s0 hclean]
        have : s0.danglingNodes ∈ states0.map Heap.danglingNodes := List.mem_map_of_mem _ hs0
        rw [hb.2] at this
        rw [List.eq_of_mem_replicate this]
        rfl
  · refine ⟨h0.relocate (glyphBlock g), h0.relocate (boardBlock g), ?_⟩
    have hb := boardBlock_steps g
    obtain ⟨b, hmem, hpar⟩ := boardBlock_members g
    cases hd : destroySteps 4 (boardBlock g : Heap ℚ) (some (glyphBlock g : Heap ℚ).length) with
    | error e => simp [hd] at hb
    | ok states0 =>
      simp only [hd, Option.some.injEq, Prod.mk.injEq] at hb
      have hrel := destroySteps_relocate h0 (boardBlock g) fuel
        (some (glyphBlock g : Heap ℚ).length)
      rw [destroySteps_fuel_le hf hd] at hrel
      simp only [shiftPtr, Option.map_some'] at hrel
      have hlen1 := Heap.relocate_length h0 (glyphBlock g : Heap ℚ)
      refine ⟨states0.map fun s => h0.relocate s, b.shift h0.length,
        Glyph.new_relocate g h0, ?_, ?_, ?_, ?_, ?_, ?_⟩
      · rw [hlen1]; exact board_new_relocate g h0
      · rw [hlen1, Heap.get_relocate, hmem]
        simp [Obj.shift, shiftPtr, add_assoc]
      · intro k hk
        rw [hlen1, add_assoc, Heap.parentOf_relocate, hpar k hk]
        simp [shiftPtr, add_assoc]
      · rw [hlen1]; exact hrel
      · simp [Heap.relocate_length, hb.1]
      · rw [List.map_map]
        have h1 : (Heap.danglingNodes ∘ fun s => h0.relocate s) =
            (List.map fun a => h0.length + a) ∘ (Heap.danglingNodes : Heap ℚ → List Nat) := by
          funext s
          simp [Function.comp, Heap.danglingNodes_relocate h0 s hclean]
        rw [h1, ← List.map_map, hb.2, wheelOrphans_map, hlen1, List.length_map, hb.1]

/-- C9 (witness): the amended statement over `plainHeap` for the glyph `CharO` with fuel 4. -/
theorem destroy_dangling_parents_witness :
    (∃ h states, Glyph.O.new plainHeap = .ok (h, plainHeap.length) ∧
      destroySteps 4 h (some plainHeap.length) = .ok states ∧
      states.length = h.length - plainHeap.length ∧
      ∀ s ∈ states, s.noDanglingParent = true) ∧
    (∃ h1 h states b, Glyph.O.new plainHeap = .ok (h1, plainHeap.length) ∧
      Skateboard.new h1 (some plainHeap.length) = .ok (h, h1.length) ∧
      h.get h1.length = some (.skateboard b (some (h1.length + 2))
        [some (h1.length + 4), some (h1.length + 6), some (h1.length + 8),
          some (h1.length + 10)] (some plainHeap.length)) ∧
      (∀ k ∈ [4, 6, 8, 10], h.parentOf (h1.length + k) = some (some (h1.length + 2))) ∧
      destroySteps 4 h (some h1.length) = .ok states ∧
      states.length = h.length - plainHeap.length ∧
      states.map Heap.danglingNodes = wheelOrphans h1.length states.length) :=
  destroy_dangling_parents plainHeap (by decide!) Glyph.O 4 (by decide)

/-- C9 (counterexample): destroying the `Skateboard` at address 9 of `boardHeap`.  In the
state after the second release (the plank, address 11, released by `delete plank`), the
wheel at address 13 is live and its parent pointer is 11, which is no longer live. -/
theorem skateboard_destructor_dangling_parent :
    ∃ states s, destroySteps 4 boardHeap (some 9) = .ok states ∧ states.get? 1 = some s ∧
      s.isLive 13 = true ∧ s.parentOf 13 = some (some 11) ∧ s.isLive 11 = false ∧
      s.noDanglingParent = false :=
  ⟨_, _, rfl, rfl, rfl, rfl, rfl, rfl⟩

/-! ## Every object destroyed exactly once -/

/-- On the empty heap: destroying a glyph releases each address of its block once. -/
theorem glyphBlock_released (g : Glyph) :
    (match delete 3 (glyphBlock g : Heap ℚ) (some 0) with
      | .ok r => decide (r.2.Perm (List.range (glyphBlock g : Heap ℚ).length))
      | .error _ => false) = true := by
  cases g <;> decide!

/-- On the empty heap: destroying a board that carries a glyph releases each address of the
block (the board's own objects and the glyph's) once. -/
theorem boardBlock_released (g : Glyph) :
    (match delete 4 (boardBlock g : Heap ℚ) (some (glyphBlock g : Heap ℚ).length) with
      | .ok r => decide (r.2.Perm (List.range (boardBlock g : Heap ℚ).length))
      | .error _ => false) = true := by
  cases g <;> decide!

theorem range_map_add (n m : Nat) :
    (List.range m).map (fun a => n + a) = List.range' n m := by
  rw [List.range_eq_range', List.map_add_range']
  simp

/-- For `CharB`, `CharO`, `CharU` built on any heap, and for a `Skateboard` built on any heap
to carry one of them: with enough fuel `delete` of the root returns, and the addresses it
releases are, each exactly once, the addresses allocated since construction began. -/
theorem built_assemblies_destroyed_exactly_once (h0 : Heap ℚ) (g : Glyph) (fuel : Nat)
    (hf : 4 ≤ fuel) :
    (∃ h h2 t, g.new h0 = .ok (h, h0.length) ∧ delete fuel h (some h0.length) = .ok (h2, t) ∧
      t.Perm (List.range' h0.length (h.length - h0.length))) ∧
    (∃ h1 h h2 t, g.new h0 = .ok (h1, h0.length) ∧
      Skateboard.new h1 (some h0.length) = .ok (h, h1.length) ∧
      delete fuel h (some h1.length) = .ok (h2, t) ∧
      t.Perm (List.range' h0.length (h.length - h0.length))) := by
  constructor
  · have hb := glyphBlock_released g
    cases hd : delete 3 (glyphBlock g : Heap ℚ) (some 0) with
    | error e => simp [hd] at hb
    | ok r =>
      obtain ⟨l2, t0⟩ := r
      simp only [hd] at hb
      have hrel := delete_relocate h0 fuel (glyphBlock g) (some 0)
      rw [delete_fuel_le (by omega : 3 ≤ fuel) hd] at hrel
      simp only [shiftPtr, Option.map_some', add_zero] at hrel
      refine ⟨h0.relocate (glyphBlock g), h0.relocate l2, t0.map fun a => h0.length + a,
        Glyph.new_relocate g h0, hrel, ?_⟩
      rw [Heap.relocate_length, Nat.add_sub_cancel_left, ← range_map_add]
      exact (of_decide_eq_true hb).map _
  · have hb := boardBlock_released g
    cases hd : delete 4 (boardBlock g : Heap ℚ) (some (glyphBlock g : Heap ℚ).length) with
    | error e => simp [hd] at hb
    | ok r =>
      obtain ⟨l2, t0⟩ := r
      simp only [hd] at hb
      have hrel := delete_relocate h0 fuel (boardBlock g) (some (glyphBlock g : Heap ℚ).length)
      rw [delete_fuel_le hf hd] at hrel
      simp only [shiftPtr, Option.map_some'] at hrel
      have hlen1 := Heap.relocate_length h0 (glyphBlock g : Heap ℚ)
      refine ⟨h0.relocate (glyphBlock g), h0.relocate (boardBlock g), h0.relocate l2,
        t0.map fun a => h0.length + a, Glyph.new_relocate g h0, ?_, ?_, ?_⟩
      · rw [hlen1]; exact board_new_relocate g h0
      · rw [hlen1]; exact hrel
      · rw [Heap.relocate_length, Nat.add_sub_cancel_left, ← range_map_add]
        exact (of_decide_eq_true hb).map _

/-- C8 (the defect): `CharD`'s constructor assigns none of its four members and its
destructor deletes all four.  (1) With stale non-null values in the members (here address 7,
where nothing lives) the destructor deletes an object that was never allocated: undefined
behaviour.  (2) With `top` holding the address of a live object of another owner (the node
at address 1 of `plainHeap`) and the other members null, the destructor releases that node
and its payload, which the constructor never allocated. -/
theorem charD_destructor_deletes_unallocated :
    delete 2 (CharD.new ([] : Heap ℚ) (some 7) (some 7) (some 7) (some 7)).1
        (some (CharD.new ([] : Heap ℚ) (some 7) (some 7) (some 7) (some 7)).2) =
      .error .invalidPointer ∧
    (match delete 3 (CharD.new plainHeap none none none (some 1)).1
        (some (CharD.new plainHeap none none none (some 1)).2) with
      | .ok r => some r.2
      | .error _ => none) = some [0, 1, 2] ∧
    (CharD.new plainHeap none none none (some 1)).2 = 2 :=
  ⟨rfl, by decide!, rfl⟩

/-! ## One draw per render, under the node's own transform -/

section
variable {R : Type} [CommRing R]

/-- The trace of `SimpleComplexRenderable::render` on a node with a live payload and a model
matrix. -/
theorem SimpleComplexRenderable.render_eq (M : ScalarFns R) (h : Heap R) (this r : Nat)
    (base : ComplexRenderable R) (c e : Vec3 R) (model : Mat4 R) (fuel shader : Nat)
    (hthis : h.get this = some (.simple base (some r)))
    (hr : h.get r = some (.renderable c e))
    (hm : getHierarchicalWorldTransform M h fuel this = .ok model) :
    SimpleComplexRenderable.render M h fuel this shader =
      .ok [ .setUniformMat4 shader .MODEL model,
            .glActiveTexture 0,
            .glBindTexture base.getTexture,
            .setUniformInt shader .TEXTURE_MAP 0,
            .setUniformInt shader .TEXTURE_PRESENT (if base.isTextured then 1 else 0),
            .draw r ] := by
  simp [SimpleComplexRenderable.render, hthis, hr, hm]

/-- C11: for a drawable-wrapping node on a finite parent chain, one call of `render` returns
a trace with exactly one draw, of the node's own payload, as its last command, and the MODEL
uniform in effect at that draw is the node's own `getHierarchicalWorldTransform()`, whatever
the pipeline held before. -/
theorem simple_render_one_draw (M : ScalarFns R) (h : Heap R) (this r : Nat)
    (base : ComplexRenderable R) (c e : Vec3 R) (rest : List Nat)
    (hthis : h.get this = some (.simple base (some r)))
    (hr : h.get r = some (.renderable c e))
    (hch : ParentChain h (this :: rest)) (fuel : Nat) (hf : rest.length < fuel)
    (shader : Nat) (s0 : Pipeline R) :
    ∃ model trace, getHierarchicalWorldTransform M h fuel this = .ok model ∧
      SimpleComplexRenderable.render M h fuel this shader = .ok trace ∧
      trace.filter GLCmd.isDraw = [.draw r] ∧
      trace.getLast? = some (.draw r) ∧
      (drawStates s0 trace).map (fun d => (d.1, d.2.model)) = [(r, some model)] := by
  have hm := getHierarchicalWorldTransform_chain M h this rest hch fuel hf
  refine ⟨_, _, hm, SimpleComplexRenderable.render_eq M h this r base c e _ fuel shader
    hthis hr hm, ?_, ?_, ?_⟩
  · simp [GLCmd.isDraw]
  · simp
  · simp [drawStates, Pipeline.step]

/-- C12: immediately after the `ComplexRenderable` constructor the node is untextured, at
position 0 with angles 0 and scales 1, has no parent, and holds texture handle 0. -/
theorem fresh_node_untextured :
    (ComplexRenderable.new : ComplexRenderable R).isTextured = false ∧
      (ComplexRenderable.new : ComplexRenderable R).getPosition = Vec3.splat 0 ∧
      (ComplexRenderable.new : ComplexRenderable R).getAngles = Vec3.splat 0 ∧
      (ComplexRenderable.new : ComplexRenderable R).getScales = Vec3.splat 1 ∧
      (ComplexRenderable.new : ComplexRenderable R).getParent = none ∧
      (ComplexRenderable.new : ComplexRenderable R).getTexture = 0 :=
  ⟨rfl, rfl, rfl, rfl, rfl, rfl⟩

/-- C13: each setter makes its getter return the value set and leaves every other field
unchanged; `setTexture` also makes `isTextured()` true. -/
theorem accessors_frame (n : ComplexRenderable R) (t : Nat) (v : Vec3 R) (p : Ptr) :
    ((n.setTexture t).getTexture = t ∧ (n.setTexture t).isTextured = true ∧
      (n.setTexture t).getPosition = n.getPosition ∧ (n.setTexture t).getAngles = n.getAngles ∧
      (n.setTexture t).getScales = n.getScales ∧ (n.setTexture t).getParent = n.getParent) ∧
    ((n.setPosition v).getPosition = v ∧ (n.setPosition v).getAngles = n.getAngles ∧
      (n.setPosition v).getScales = n.getScales ∧ (n.setPosition v).getParent = n.getParent ∧
      (n.setPosition v).getTexture = n.getTexture ∧
      (n.setPosition v).isTextured = n.isTextured) ∧
    ((n.setAngles v).getAngles = v ∧ (n.setAngles v).getPosition = n.getPosition ∧
      (n.setAngles v).getScales = n.getScales ∧ (n.setAngles v).getParent = n.getParent ∧
      (n.setAngles v).getTexture = n.getTexture ∧
      (n.setAngles v).isTextured = n.isTextured) ∧
    ((n.setScales v).getScales = v ∧ (n.setScales v).getPosition = n.getPosition ∧
      (n.setScales v).getAngles = n.getAngles ∧ (n.setScales v).getParent = n.getParent ∧
      (n.setScales v).getTexture = n.getTexture ∧
      (n.setScales v).isTextured = n.isTextured) ∧
    ((n.setParent p).getParent = p ∧ (n.setParent p).getPosition = n.getPosition ∧
      (n.setParent p).getAngles = n.getAngles ∧ (n.setParent p).getScales = n.getScales ∧
      (n.setParent p).getTexture = n.getTexture ∧
      (n.setParent p).isTextured = n.isTextured) :=
  ⟨⟨rfl, rfl, rfl, rfl, rfl, rfl⟩, ⟨rfl, rfl, rfl, rfl, rfl, rfl⟩, ⟨rfl, rfl, rfl, rfl, rfl, rfl⟩,
    ⟨rfl, rfl, rfl, rfl, rfl, rfl⟩, ⟨rfl, rfl, rfl, rfl, rfl, rfl⟩⟩

end

/-- C11 (witness): wheel 13 of `movedBoardHeap`, whose payload is at address 12 and whose
chain is 13, 11, 9, rendered into the untouched pipeline. -/
theorem simple_render_one_draw_witness :
    ∃ model trace, getHierarchicalWorldTransform ratFns movedBoardHeap 3 13 = .ok model ∧
      SimpleComplexRenderable.render ratFns movedBoardHeap 3 13 0 = .ok trace ∧
      trace.filter GLCmd.isDraw = [.draw 12] ∧
      trace.getLast? = some (.draw 12) ∧
      (drawStates Pipeline.init trace).map (fun d => (d.1, d.2.model)) = [(12, some model)] :=
  simple_render_one_draw ratFns movedBoardHeap 13 12 _ _ _ [11, 9] rfl rfl ⟨rfl, rfl, rfl⟩ 3
    (by decide) 0 Pipeline.init

/-! ## The local transform -/

section
variable {R : Type} [CommRing R]

theorem translate_one_eq (p : Vec3 R) : translate (1 : Mat4 R) p = translationMatrix p := by
  ext i j
  simp only [translate, translationMatrix, Matrix.of_apply]
  fin_cases i <;> fin_cases j <;> (simp [Matrix.one_apply] <;> rfl)

theorem scale_one_eq (s : Vec3 R) : scale (1 : Mat4 R) s = scalingMatrix s := by
  ext i j
  simp only [scale, scalingMatrix, Matrix.of_apply]
  fin_cases i <;> fin_cases j <;> (simp [Matrix.one_apply] <;> rfl)

theorem rotate_one_x (M : ScalarFns R) (hinv : M.inversesqrt 1 = 1) (a : R) :
    rotate M (1 : Mat4 R) a ⟨1, 0, 0⟩ = rotationX M a := by
  have hn : normalize M (⟨1, 0, 0⟩ : Vec3 R) = ⟨1, 0, 0⟩ := by
    simp [normalize, Vec3.dot, hinv]
  ext i j
  simp only [rotate, rotateBlock, hn, Vec3.smul, rotationX, Matrix.of_apply]
  fin_cases i <;> fin_cases j <;> (simp [Matrix.one_apply] <;> rfl)

theorem rotate_one_y (M : ScalarFns R) (hinv : M.inversesqrt 1 = 1) (a : R) :
    rotate M (1 : Mat4 R) a ⟨0, 1, 0⟩ = rotationY M a := by
  have hn : normalize M (⟨0, 1, 0⟩ : Vec3 R) = ⟨0, 1, 0⟩ := by
    simp [normalize, Vec3.dot, hinv]
  ext i j
  simp only [rotate, rotateBlock, hn, Vec3.smul, rotationY, Matrix.of_apply]
  fin_cases i <;> fin_cases j <;> (simp [Matrix.one_apply] <;> rfl)

theorem rotate_one_z (M : ScalarFns R) (hinv : M.inversesqrt 1 = 1) (a : R) :
    rotate M (1 : Mat4 R) a ⟨0, 0, 1⟩ = rotationZ M a := by
  have hn : normalize M (⟨0, 0, 1⟩ : Vec3 R) = ⟨0, 0, 1⟩ := by
    simp [normalize, Vec3.dot, hinv]
  ext i j
  simp only [rotate, rotateBlock, hn, Vec3.smul, rotationZ, Matrix.of_apply]
  fin_cases i <;> fin_cases j <;> (simp [Matrix.one_apply] <;> rfl)

/-- C16: the local transform is `translate(position) * (Rz * Ry * Rx) * scale(scales)`, so
applied to a column vector it scales first, then rotates about X, then Y, then Z, then
translates. -/
theorem local_transform_is_T_R_S (M : ScalarFns R) (hinv : M.inversesqrt 1 = 1)
    (n : ComplexRenderable R) :
    n.getWorldTransform M =
        translationMatrix n.position *
          (rotationZ M n.angles.z * rotationY M n.angles.y * rotationX M n.angles.x) *
          scalingMatrix n.scales ∧
      n.getRotation M =
        rotationZ M n.angles.z * rotationY M n.angles.y * rotationX M n.angles.x ∧
      ∀ v : Fin 4 → R, (n.getWorldTransform M).mulVec v =
        (translationMatrix n.position).mulVec ((rotationZ M n.angles.z).mulVec
          ((rotationY M n.angles.y).mulVec ((rotationX M n.angles.x).mulVec
            ((scalingMatrix n.scales).mulVec v)))) := by
  have hR : n.getRotation M =
      rotationZ M n.angles.z * rotationY M n.angles.y * rotationX M n.angles.x := by
    simp only [ComplexRenderable.getRotation, rotate_one_x M hinv, rotate_one_y M hinv,
      rotate_one_z M hinv]
  have hL : n.getWorldTransform M =
      translationMatrix n.position *
        (rotationZ M n.angles.z * rotationY M n.angles.y * rotationX M n.angles.x) *
        scalingMatrix n.scales := by
    simp only [ComplexRenderable.getWorldTransform, ComplexRenderable.getTranslation,
      ComplexRenderable.getScaling, hR, translate_one_eq, scale_one_eq]
  refine ⟨hL, hR, fun v => ?_⟩
  rw [hL]
  simp only [Matrix.mulVec_mulVec, Matrix.mul_assoc]

theorem mul_col3 (A B : Mat4 R) (hB : ∀ k, B k 3 = (1 : Mat4 R) k 3) (i : Fin 4) :
    (A * B) i 3 = A i 3 := by
  simp [Matrix.mul_apply, Fin.sum_univ_four, hB, Matrix.one_apply]

theorem rotate_one_col3 (M : ScalarFns R) (a : R) (v : Vec3 R) (k : Fin 4) :
    rotate M (1 : Mat4 R) a v k 3 = (1 : Mat4 R) k 3 := by
  simp [rotate]

theorem scale_one_col3 (s : Vec3 R) (k : Fin 4) :
    scale (1 : Mat4 R) s k 3 = (1 : Mat4 R) k 3 := by
  simp [scale]

/-- Whatever the angles and scales, the fourth column of the local transform is the
homogeneous point `(position, 1)`. -/
theorem getWorldTransform_col3 (M : ScalarFns R) (n : ComplexRenderable R) (i : Fin 4) :
    n.getWorldTransform M i 3 = n.position.toPoint i := by
  have hR : ∀ k, n.getRotation M k 3 = (1 : Mat4 R) k 3 := by
    intro k
    simp only [ComplexRenderable.getRotation]
    rw [mul_col3 _ _ (rotate_one_col3 M _ _), mul_col3 _ _ (rotate_one_col3 M _ _)]
    exact rotate_one_col3 M _ _ k
  simp only [ComplexRenderable.getWorldTransform, ComplexRenderable.getScaling]
  rw [mul_col3 _ _ (scale_one_col3 _), mul_col3 _ _ hR]
  fin_cases i <;>
    simp [ComplexRenderable.getTranslation, translate, Matrix.one_apply, Vec3.toPoint]

theorem translationColumn_mul_local (M : ScalarFns R) (X : Mat4 R) (n : ComplexRenderable R) :
    translationColumn (X * n.getWorldTransform M) = transformPoint X n.position := by
  simp only [translationColumn, transformPoint, Matrix.mul_apply, Matrix.mulVec,
    Matrix.dotProduct, getWorldTransform_col3]

end

section
variable {R : Type} [CommRing R]

/-- C18: for a node `N` with any angles and scales.  If `N` has a parent `P` heading a finite
chain, the translation column of `N`'s hierarchical transform is `P`'s hierarchical
transform applied to the homogeneous point `(position(N), 1)`; if `N` has no parent it is
`position(N)` itself. -/
theorem origin_follows_parent (M : ScalarFns R) (h : Heap R) (N : Nat)
    (nN : ComplexRenderable R) (hN : h.node N = some nN) :
    (∀ (P : Nat) (rest : List Nat), nN.parent = some P → ParentChain h (P :: rest) →
      ∀ fP fN : Nat, rest.length < fP → rest.length + 1 < fN →
        ∃ XP XN, getHierarchicalWorldTransform M h fP P = .ok XP ∧
          getHierarchicalWorldTransform M h fN N = .ok XN ∧
          translationColumn XN = transformPoint XP nN.position) ∧
    (nN.parent = none → ∀ fN : Nat, 0 < fN →
      ∃ XN, getHierarchicalWorldTransform M h fN N = .ok XN ∧
        translationColumn XN = nN.position) := by
  constructor
  · intro P rest hP hc fP fN hfP hfN
    refine ⟨chainTransform M h (P :: rest), chainTransform M h (N :: P :: rest),
      getHierarchicalWorldTransform_chain M h P rest hc fP hfP,
      getHierarchicalWorldTransform_chain M h N (P :: rest) (parentChain_cons hN hP hc) fN
        (by simpa using hfN), ?_⟩
    have hl : chainTransform M h (N :: P :: rest) =
        chainTransform M h (P :: rest) * nN.getWorldTransform M := by
      simp [chainTransform, localAt, hN]
    rw [hl, translationColumn_mul_local]
  · intro hP fN hf
    refine ⟨nN.getWorldTransform M, ?_, ?_⟩
    · cases fN with
      | zero => exact absurd hf (by decide)
      | succ f => simp [getHierarchicalWorldTransform, hwtHelper, hN, hP]
    · have := translationColumn_mul_local M 1 nN
      rw [Matrix.one_mul] at this
      rw [this]
      cases hp : nN.position
      simp [transformPoint, Vec3.toPoint, Matrix.mulVec, Matrix.dotProduct, Fin.sum_univ_four,
        Matrix.one_apply]

end

/-! ## Termination of the parent-chain walk -/

section
variable {R : Type} [CommRing R]

theorem parentChain_unique {h : Heap R} :
    ∀ (l1 l2 : List Nat) (a : Nat), ParentChain h (a :: l1) → ParentChain h (a :: l2) →
      l1 = l2 := by
  intro l1
  induction l1 with
  | nil =>
    intro l2 a h1 h2
    obtain ⟨n1, hn1, hp1⟩ := parentChain_head h1
    obtain ⟨n2, hn2, hp2⟩ := parentChain_head h2
    rw [hn1] at hn2
    cases hn2
    cases l2 with
    | nil => rfl
    | cons b l2 => simp [hp1] at hp2
  | cons b l1 ih =>
    intro l2 a h1 h2
    obtain ⟨n1, hn1, hp1⟩ := parentChain_head h1
    obtain ⟨n2, hn2, hp2⟩ := parentChain_head h2
    rw [hn1] at hn2
    cases hn2
    cases l2 with
    | nil => simp [hp1] at hp2
    | cons c l2 =>
      have hbc : b = c := by simpa [hp1] using hp2
      subst hbc
      rw [ih l2 b (parentChain_tail h1) (parentChain_tail h2)]

theorem parentChain_suffix {h : Heap R} :
    ∀ (l1 : List Nat) (a : Nat) (l2 : List Nat), ParentChain h (l1 ++ a :: l2) →
      ParentChain h (a :: l2) := by
  intro l1
  induction l1 with
  | nil => intro a l2 hc; exact hc
  | cons b l1 ih =>
    intro a l2 hc
    cases l1 with
    | nil => exact parentChain_tail hc
    | cons c l1 => exact ih a l2 (parentChain_tail hc)

/-- A parent chain visits no node twice. -/
theorem parentChain_nodup {h : Heap R} :
    ∀ (l : List Nat), ParentChain h l → l.Nodup := by
  intro l
  induction l with
  | nil => intro _; exact List.nodup_nil
  | cons a l ih =>
    intro hc
    have hl : l.Nodup := by
      cases l with
      | nil => exact List.nodup_nil
      | cons b l => exact ih (parentChain_tail hc)
    refine List.nodup_cons.2 ⟨?_, hl⟩
    intro hmem
    obtain ⟨l1, l2, hsplit⟩ := List.append_of_mem hmem
    have hsuf : ParentChain h (a :: l2) := by
      have hc2 : ParentChain h ((a :: l1) ++ a :: l2) := by simpa [hsplit] using hc
      exact parentChain_suffix (a :: l1) a l2 hc2
    have := parentChain_unique l l2 a hc hsuf
    have hlen : l.length = l2.length := by rw [this]
    rw [hsplit] at hlen
    simp at hlen
    omega

/-- Over a forest the total walk along a chain returns the chain's product, after one call
per node of the chain. -/
theorem hwtHelperTotal_chain (M : ScalarFns R) (F : Forest R) :
    ∀ (l : List Nat) (a : Nat) (m : Mat4 R), ParentChain F.heap (a :: l) →
      hwtHelperTotal M F a m = .ok (chainTransform M F.heap (a :: l) * m, (a :: l).length) := by
  intro l
  induction l with
  | nil =>
    intro a m hc
    obtain ⟨n, hn, hp⟩ := parentChain_head hc
    simp only [List.head?_nil] at hp
    rw [hwtHelperTotal]
    split
    · rename_i hnone; rw [hn] at hnone; cases hnone
    · rename_i n2 hn2
      rw [hn] at hn2
      cases hn2
      split
      · rename_i p hp2; rw [hp] at hp2; cases hp2
      · simp [chainTransform, localAt, hn]
  | cons b rest ih =>
    intro a m hc
    obtain ⟨n, hn, hp⟩ := parentChain_head hc
    simp only [List.head?_cons] at hp
    rw [hwtHelperTotal]
    split
    · rename_i hnone; rw [hn] at hnone; cases hnone
    · rename_i n2 hn2
      rw [hn] at hn2
      cases hn2
      split
      · rename_i p hp2
        rw [hp] at hp2
        cases hp2
        rw [ih b _ (parentChain_tail hc)]
        simp [chainTransform, localAt, hn, Matrix.mul_assoc]
      · rename_i hp2; rw [hp] at hp2; cases hp2

/-- C17: when the parent references from a node form a finite chain to a parentless
ancestor, the chain visits no node twice; `hwtHelper` returns as soon as its budget covers
one call per node of the chain and does not return with less, so it makes exactly one call
for the node and for each ancestor; and over a forest the walk, a total function by
well-founded recursion on the rank of the node, returns the same matrix after exactly that
many calls. -/
theorem hwt_terminates_one_step_per_node (M : ScalarFns R) (h : Heap R) (a : Nat)
    (l : List Nat) (hc : ParentChain h (a :: l)) :
    (a :: l).Nodup ∧
    (∀ fuel, (a :: l).length ≤ fuel →
      getHierarchicalWorldTransform M h fuel a = .ok (chainTransform M h (a :: l))) ∧
    (∀ fuel m, (a :: l).length ≤ fuel →
      hwtHelper M h fuel a m = .ok (chainTransform M h (a :: l) * m)) ∧
    (∀ fuel m, fuel < (a :: l).length → hwtHelper M h fuel a m = .error .outOfFuel) ∧
    (∀ F : Forest R, F.heap = h → ∀ m,
      hwtHelperTotal M F a m = .ok (chainTransform M h (a :: l) * m, (a :: l).length)) := by
  refine ⟨parentChain_nodup _ hc, ?_, ?_, ?_, ?_⟩
  · intro fuel hf
    exact getHierarchicalWorldTransform_chain M h a l hc fuel (by simpa using hf)
  · intro fuel m hf
    exact hwtHelper_chain M h l a fuel m hc (by simpa using hf)
  · intro fuel m hf
    exact hwtHelper_chain_outOfFuel M h l a fuel m hc (by simp at hf; omega)
  · intro F hF m
    subst hF
    exact hwtHelperTotal_chain M F l a m hc

end

/-! ## The local-transform and termination theorems at concrete scenes -/

theorem ratFns_inversesqrt_one : ratFns.inversesqrt 1 = 1 := by norm_num [ratFns]

/-- C16 (witness): a node at (1, 2, 3) turned by the angles (1, 2, 3) and scaled by
(2, 3, 4). -/
theorem local_transform_is_T_R_S_witness :
    ComplexRenderable.getWorldTransform ratFns
        ({ position := ⟨1, 2, 3⟩, angles := ⟨1, 2, 3⟩, scales := ⟨2, 3, 4⟩, parent := none,
           texture := 0, textured := false } : ComplexRenderable ℚ) =
        translationMatrix ⟨1, 2, 3⟩ *
          (rotationZ ratFns 3 * rotationY ratFns 2 * rotationX ratFns 1) *
          scalingMatrix ⟨2, 3, 4⟩ ∧
      ComplexRenderable.getRotation ratFns
        ({ position := ⟨1, 2, 3⟩, angles := ⟨1, 2, 3⟩, scales := ⟨2, 3, 4⟩, parent := none,
           texture := 0, textured := false } : ComplexRenderable ℚ) =
        rotationZ ratFns 3 * rotationY ratFns 2 * rotationX ratFns 1 ∧
      ∀ v : Fin 4 → ℚ, (ComplexRenderable.getWorldTransform ratFns
        ({ position := ⟨1, 2, 3⟩, angles := ⟨1, 2, 3⟩, scales := ⟨2, 3, 4⟩, parent := none,
           texture := 0, textured := false } : ComplexRenderable ℚ)).mulVec v =
        (translationMatrix ⟨1, 2, 3⟩).mulVec ((rotationZ ratFns 3).mulVec
          ((rotationY ratFns 2).mulVec ((rotationX ratFns 1).mulVec
            ((scalingMatrix ⟨2, 3, 4⟩).mulVec v)))) :=
  local_transform_is_T_R_S ratFns ratFns_inversesqrt_one _

/-- C17 (witness): the chain 2, 1, 0 of `chainHeap`. -/
theorem hwt_terminates_one_step_per_node_witness :
    [2, 1, 0].Nodup ∧
    (∀ fuel, [2, 1, 0].length ≤ fuel →
      getHierarchicalWorldTransform ratFns chainHeap fuel 2 =
        .ok (chainTransform ratFns chainHeap [2, 1, 0])) ∧
    (∀ fuel m, [2, 1, 0].length ≤ fuel →
      hwtHelper ratFns chainHeap fuel 2 m = .ok (chainTransform ratFns chainHeap [2, 1, 0] * m)) ∧
    (∀ fuel m, fuel < [2, 1, 0].length →
      hwtHelper ratFns chainHeap fuel 2 m = .error .outOfFuel) ∧
    (∀ F : Forest ℚ, F.heap = chainHeap → ∀ m,
      hwtHelperTotal ratFns F 2 m =
        .ok (chainTransform ratFns chainHeap [2, 1, 0] * m, [2, 1, 0].length)) :=
  hwt_terminates_one_step_per_node ratFns chainHeap 2 [1, 0] ⟨rfl, rfl, rfl⟩

/-- The total walk from node 2 of the forest `chainForest` makes three calls. -/
theorem hwtHelperTotal_chainForest :
    hwtHelperTotal ratFns chainForest 2 1 =
      .ok (chainTransform ratFns chainHeap [2, 1, 0] * 1, 3) :=
  hwtHelperTotal_chain ratFns chainForest [1, 0] 2 1 ⟨rfl, rfl, rfl⟩

/-- C18 (witness): wheel 13 of `boardHeap`, child of the plank 11, child of the board 9;
and the parentless node 1 of `plainHeap`. -/
theorem origin_follows_parent_witness :
    (∃ XP XN, getHierarchicalWorldTransform ratFns boardHeap 2 11 = .ok XP ∧
      getHierarchicalWorldTransform ratFns boardHeap 3 13 = .ok XN ∧
      translationColumn XN = transformPoint XP (Vec3.add (Vec3.splat 0) ⟨-1.5, 0.5, -1.5⟩)) ∧
    (∃ XN, getHierarchicalWorldTransform ratFns plainHeap 1 1 = .ok XN ∧
      translationColumn XN = ⟨-4, 1, -2⟩) :=
  ⟨(origin_follows_parent ratFns boardHeap 13 _ rfl).1 11 [9] rfl ⟨rfl, rfl⟩ 2 3
      (by decide) (by decide),
    (origin_follows_parent ratFns plainHeap 1 _ rfl).2 rfl 1 (by decide)⟩

/-! ## Rendering a skateboard -/

section
variable {R : Type} [Field R]

/-- A live drawable-wrapping node on a finite chain renders, through the virtual call, as
`SimpleComplexRenderable::render` does, with the chain's product as MODEL. -/
theorem render_part (M : ScalarFns R) (h : Heap R) (hfuel shader k p r : Nat)
    (base : ComplexRenderable R) (c e : Vec3 R) (rest : List Nat)
    (hp : h.get p = some (.simple base (some r))) (hr : h.get r = some (.renderable c e))
    (hch : ParentChain h (p :: rest)) (hf : rest.length < hfuel) :
    render M h hfuel shader (k + 1) p =
      .ok [ .setUniformMat4 shader .MODEL (chainTransform M h (p :: rest)),
            .glActiveTexture 0,
            .glBindTexture base.getTexture,
            .setUniformInt shader .TEXTURE_MAP 0,
            .setUniformInt shader .TEXTURE_PRESENT (if base.isTextured then 1 else 0),
            .draw r ] := by
  rw [render]
  simp only [hp]
  exact SimpleComplexRenderable.render_eq M h p r base c e _ hfuel shader hp hr
    (getHierarchicalWorldTransform_chain M h p rest hch hfuel hf)

/-- The draws of a part's trace: one draw, of the payload, seeing the colour written before
the part was rendered. -/
theorem drawStates_part (s0 : Pipeline R) (shader : Nat) (model : Mat4 R) (tex : Nat)
    (tp : Int) (r : Nat) (tail : List (GLCmd R)) :
    (drawStates s0 ([ .setUniformMat4 shader .MODEL model, .glActiveTexture 0,
        .glBindTexture tex, .setUniformInt shader .TEXTURE_MAP 0,
        .setUniformInt shader .TEXTURE_PRESENT tp, .draw r ] ++ tail)).map
        (fun d => (d.1, d.2.objectColor)) =
      (r, s0.objectColor) ::
        (drawStates ((((s0.step (.setUniformMat4 shader .MODEL model)).step
          (.glBindTexture tex)).step (.setUniformInt shader .TEXTURE_MAP 0)).step
            (.setUniformInt shader .TEXTURE_PRESENT tp)) tail).map
          (fun d => (d.1, d.2.objectColor)) := by
  simp [drawStates, Pipeline.step]

end

section
variable {R : Type} [Field R]

/-- C14: `Skateboard::render` on a board whose plank and four wheels are live drawable parts.
The call returns a trace that is a first segment followed by the character's own trace
(nothing when there is no character), so the character is rendered after every plank and
wheel draw; the first segment holds exactly five draws, in the order plank, wheels 0 to 3;
the `OBJECT_COLOR` in effect at the plank's draw is (193/255, 154/255, 107/255) and at each
wheel's draw it is (0, 0, 0), whatever the pipeline held before. -/
theorem skateboard_render_order (M : ScalarFns R) (h : Heap R) (hfuel shader fuel : Nat)
    (s plank w0 w1 w2 w3 rp r0 r1 r2 r3 : Nat) (b : ComplexRenderable R) (character : Ptr)
    (Tc : List (GLCmd R))
    (hs : h.get s =
      some (.skateboard b (some plank) [some w0, some w1, some w2, some w3] character))
    (hplank : DrawablePart h hfuel plank rp)
    (hw0 : DrawablePart h hfuel w0 r0) (hw1 : DrawablePart h hfuel w1 r1)
    (hw2 : DrawablePart h hfuel w2 r2) (hw3 : DrawablePart h hfuel w3 r3)
    (hchar : match character with
      | some c => render M h hfuel shader (fuel + 1) c = .ok Tc
      | none => Tc = [])
    (s0 : Pipeline R) :
    ∃ first, render M h hfuel shader (fuel + 2) s = .ok (first ++ Tc) ∧
      (drawStates s0 first).map (fun d => (d.1, d.2.objectColor)) =
        [ (rp, some ⟨193.0 / 255.0, 154.0 / 255.0, 107.0 / 255.0⟩),
          (r0, some (Vec3.splat 0.0)), (r1, some (Vec3.splat 0.0)),
          (r2, some (Vec3.splat 0.0)), (r3, some (Vec3.splat 0.0)) ] ∧
      first.head? =
        some (.setUniformVec3 shader .OBJECT_COLOR ⟨193.0 / 255.0, 154.0 / 255.0, 107.0 / 255.0⟩) := by
  obtain ⟨bp, cp, ep, restp, hp1, hp2, hp3, hp4⟩ := hplank
  obtain ⟨b0, c0, e0, rest0, h01, h02, h03, h04⟩ := hw0
  obtain ⟨b1, c1, e1, rest1, h11, h12, h13, h14⟩ := hw1
  obtain ⟨b2, c2, e2, rest2, h21, h22, h23, h24⟩ := hw2
  obtain ⟨b3, c3, e3, rest3, h31, h32, h33, h34⟩ := hw3
  have ep := render_part M h hfuel shader fuel plank rp bp cp ep restp hp1 hp2 hp3 hp4
  have e0 := render_part M h hfuel shader fuel w0 r0 b0 c0 e0 rest0 h01 h02 h03 h04
  have e1 := render_part M h hfuel shader fuel w1 r1 b1 c1 e1 rest1 h11 h12 h13 h14
  have e2 := render_part M h hfuel shader fuel w2 r2 b2 c2 e2 rest2 h21 h22 h23 h24
  have e3 := render_part M h hfuel shader fuel w3 r3 b3 c3 e3 rest3 h31 h32 h33 h34
  have hrun : render M h hfuel shader (fuel + 2) s =
      .ok (([.setUniformVec3 shader .OBJECT_COLOR ⟨193.0 / 255.0, 154.0 / 255.0, 107.0 / 255.0⟩]
        ++ [ .setUniformMat4 shader .MODEL (chainTransform M h (plank :: restp)),
            .glActiveTexture 0, .glBindTexture bp.getTexture,
            .setUniformInt shader .TEXTURE_MAP 0,
            .setUniformInt shader .TEXTURE_PRESENT (if bp.isTextured then 1 else 0),
            .draw rp ]
        ++ [.setUniformVec3 shader .OBJECT_COLOR (Vec3.splat 0.0)]
        ++ ([ .setUniformMat4 shader .MODEL (chainTransform M h (w0 :: rest0)),
            .glActiveTexture 0, .glBindTexture b0.getTexture,
            .setUniformInt shader .TEXTURE_MAP 0,
            .setUniformInt shader .TEXTURE_PRESENT (if b0.isTextured then 1 else 0),
            .draw r0 ]
          ++ ([ .setUniformMat4 shader .MODEL (chainTransform M h (w1 :: rest1)),
            .glActiveTexture 0, .glBindTexture b1.getTexture,
            .setUniformInt shader .TEXTURE_MAP 0,
            .setUniformInt shader .TEXTURE_PRESENT (if b1.isTextured then 1 else 0),
            .draw r1 ]
          ++ ([ .setUniformMat4 shader .MODEL (chainTransform M h (w2 :: rest2)),
            .glActiveTexture 0, .glBindTexture b2.getTexture,
            .setUniformInt shader .TEXTURE_MAP 0,
            .setUniformInt shader .TEXTURE_PRESENT (if b2.isTextured then 1 else 0),
            .draw r2 ]
          ++ ([ .setUniformMat4 shader .MODEL (chainTransform M h (w3 :: rest3)),
            .glActiveTexture 0, .glBindTexture b3.getTexture,
            .setUniformInt shader .TEXTURE_MAP 0,
            .setUniformInt shader .TEXTURE_PRESENT (if b3.isTextured then 1 else 0),
            .draw r3 ] ++ []))))) ++ Tc) := by
    rw [render]
    simp only [hs, renderList, ep, e0, e1, e2, e3]
    cases character with
    | none =>
      simp only at hchar
      subst hchar
      rfl
    | some c =>
      simp only at hchar
      simp only [hchar]
      rfl
  refine ⟨_, hrun, ?_, ?_⟩
  · simp [drawStates, Pipeline.step]
  · simp
end

/-- C14 (witness): the board at address 9 of `boardHeap`, carrying the `CharO` at address 0,
rendered into the untouched pipeline. -/
theorem skateboard_render_order_witness :
    ∃ Tc, render ratFns boardHeap 3 0 2 0 = .ok Tc ∧
      ∃ first, render ratFns boardHeap 3 0 3 9 = .ok (first ++ Tc) ∧
        (drawStates Pipeline.init first).map (fun d => (d.1, d.2.objectColor)) =
          [ (10, some ⟨193.0 / 255.0, 154.0 / 255.0, 107.0 / 255.0⟩),
            (12, some (Vec3.splat 0.0)), (14, some (Vec3.splat 0.0)),
            (16, some (Vec3.splat 0.0)), (18, some (Vec3.splat 0.0)) ] ∧
        first.head? =
          some (.setUniformVec3 0 .OBJECT_COLOR ⟨193.0 / 255.0, 154.0 / 255.0, 107.0 / 255.0⟩) :=
  ⟨_, rfl, skateboard_render_order ratFns boardHeap 3 0 1 9 11 13 15 17 19 10 12 14 16 18 _
    (some 0) _ rfl
    ⟨_, _, _, [9], rfl, rfl, ⟨rfl, rfl⟩, by decide⟩
    ⟨_, _, _, [11, 9], rfl, rfl, ⟨rfl, rfl, rfl⟩, by decide⟩
    ⟨_, _, _, [11, 9], rfl, rfl, ⟨rfl, rfl, rfl⟩, by decide⟩
    ⟨_, _, _, [11, 9], rfl, rfl, ⟨rfl, rfl, rfl⟩, by decide⟩
    ⟨_, _, _, [11, 9], rfl, rfl, ⟨rfl, rfl, rfl⟩, by decide⟩
    rfl Pipeline.init⟩

section
variable {R : Type} [Field R]

/-- C15 (the defect): on every heap, `new Skateboard(nullptr)` faults: after the plank and
the four wheels are built, the constructor's last statement `character->setParent(this)`
calls through the null pointer. -/
theorem skateboard_new_null_character (h0 : Heap R) :
    Skateboard.new h0 none = .error .invalidPointer := by
  simp [Skateboard.new, Skateboard.wheelLoop, Skateboard.moveWheel, Skateboard.wheel,
    Heap.updatePtr, Obj.setPlank, Obj.setWheel, newPart, createCuboid,
    SimpleComplexRenderable.new, Heap.alloc_base, Heap.alloc_append, Heap.update, Heap.modify,
    Heap.getD_append_add, Heap.put_append_add, Heap.getD_append_len, Heap.put_append_len,
    bind, Except.bind, pure, Except.pure, Obj.base, Obj.mapBase, add_assoc]

end

/-! ## Glyph parts follow the glyph -/

section
variable {R : Type} [Field R]

/-- On the empty heap: every part of a glyph is a fresh drawable-wrapping node whose parent
is the glyph (address 0) and whose payload sits just before it. -/
theorem glyphBlock_parts (g : Glyph) :
    ∀ k ∈ g.parts 0,
      (glyphBlock g : Heap R).get k =
          some (.simple (ComplexRenderable.new.setParent (some 0)) (some (k - 1))) ∧
        ∃ c e, (glyphBlock g : Heap R).get (k - 1) = some (.renderable c e) := by
  cases g <;>
    simp [Glyph.parts, glyphBlock, heapOf, Glyph.new, CharB.new, CharO.new, CharU.new, newPart,
      createCuboid, SimpleComplexRenderable.new, Heap.alloc, Heap.update, Heap.modify, Heap.get,
      Heap.put, bind, Except.bind, pure, Except.pure, Obj.base, Obj.mapBase]

/-- On the empty heap: the glyph object and its members. -/
theorem glyphBlock_root (g : Glyph) :
    (glyphBlock g : Heap R).get 0 =
      some (match g with
        | .B => .charB ComplexRenderable.new (some 2) (some 4) (some 6) (some 8) (some 10)
            (some 12)
        | .O => .charO ComplexRenderable.new (some 2) (some 4) (some 6) (some 8)
        | .U => .charU ComplexRenderable.new (some 2) (some 4) (some 6)) := by
  cases g <;>
    simp [glyphBlock, heapOf, Glyph.new, CharB.new, CharO.new, CharU.new, newPart,
      createCuboid, SimpleComplexRenderable.new, Heap.alloc, Heap.update, Heap.modify, Heap.get,
      Heap.put, bind, Except.bind, pure, Except.pure, Obj.base, Obj.mapBase]

end

section
variable {R : Type} [Field R]

theorem Glyph.parts_eq_map (g : Glyph) (n : Nat) :
    g.parts n = (g.parts 0).map fun k => n + k := by
  cases g <;> simp [Glyph.parts, Nat.add_comm]

/-- A sequence of parts that each render one draw under the MODEL `X`: the sequence renders,
and every draw of its trace sees `X`. -/
theorem renderList_same_model (rnd : Nat → Except Fault (List (GLCmd R))) (shader : Nat)
    (X : Mat4 R) :
    ∀ ps : List Nat,
      (∀ p ∈ ps, ∃ (tex : Nat) (tp : Int) (r : Nat), rnd p =
        .ok [ .setUniformMat4 shader .MODEL X, .glActiveTexture 0, .glBindTexture tex,
              .setUniformInt shader .TEXTURE_MAP 0, .setUniformInt shader .TEXTURE_PRESENT tp,
              .draw r ]) →
      ∃ t, renderList rnd (ps.map some) = .ok t ∧
        ∀ s0 : Pipeline R, (drawStates s0 t).map (fun d => d.2.model) =
          List.replicate ps.length (some X) := by
  intro ps
  induction ps with
  | nil => intro _; exact ⟨[], rfl, fun _ => rfl⟩
  | cons p ps ih =>
    intro hall
    obtain ⟨tex, tp, r, hp⟩ := hall p (by simp)
    obtain ⟨t, ht, hd⟩ := ih (fun q hq => hall q (by simp [hq]))
    refine ⟨[ .setUniformMat4 shader .MODEL X, .glActiveTexture 0, .glBindTexture tex,
        .setUniformInt shader .TEXTURE_MAP 0, .setUniformInt shader .TEXTURE_PRESENT tp,
        .draw r ] ++ t, by simp only [List.map_cons, renderList, hp, ht], fun s0 => ?_⟩
    simp [drawStates, Pipeline.step, hd, List.replicate_succ]

/-- The glyph built on `h0` and then modified by `f`, and what `glyphAfter` holds at the
glyph's address, at its parts and at their payloads. -/
theorem glyphAfter_cells (g : Glyph) (h0 : Heap R)
    (f : ComplexRenderable R → ComplexRenderable R) :
    (g.new h0 = .ok (h0.relocate (glyphBlock g), h0.length) ∧
      (h0.relocate (glyphBlock g)).update h0.length f = .ok (glyphAfter g h0 f)) ∧
    (glyphAfter g h0 f).get h0.length =
      some (match g with
        | .B => .charB (f ComplexRenderable.new) (some (h0.length + 2)) (some (h0.length + 4))
            (some (h0.length + 6)) (some (h0.length + 8)) (some (h0.length + 10))
            (some (h0.length + 12))
        | .O => .charO (f ComplexRenderable.new) (some (h0.length + 2)) (some (h0.length + 4))
            (some (h0.length + 6)) (some (h0.length + 8))
        | .U => .charU (f ComplexRenderable.new) (some (h0.length + 2)) (some (h0.length + 4))
            (some (h0.length + 6))) ∧
    ∀ k ∈ g.parts 0,
      (glyphAfter g h0 f).get (h0.length + k) =
          some (.simple (ComplexRenderable.new.setParent (some h0.length))
            (some (h0.length + (k - 1)))) ∧
        ∃ c e, (glyphAfter g h0 f).get (h0.length + (k - 1)) = some (.renderable c e) := by
  have hnew := Glyph.new_relocate g h0
  have hroot : (h0.relocate (glyphBlock g)).get h0.length =
      ((glyphBlock g : Heap R).get 0).map (Obj.shift h0.length) := by
    simpa using Heap.get_relocate h0 (glyphBlock g) 0
  rw [glyphBlock_root] at hroot
  have hup : (h0.relocate (glyphBlock g)).update h0.length f =
      .ok ((h0.relocate (glyphBlock g)).put h0.length
        ((Obj.shift h0.length (match g with
          | .B => .charB ComplexRenderable.new (some 2) (some 4) (some 6) (some 8) (some 10)
              (some 12)
          | .O => .charO ComplexRenderable.new (some 2) (some 4) (some 6) (some 8)
          | .U => .charU ComplexRenderable.new (some 2) (some 4) (some 6))).mapBase f)) := by
    unfold Heap.update
    rw [hroot]
    cases g <;> simp [Obj.shift, Obj.base]
  have hga : glyphAfter g h0 f = (h0.relocate (glyphBlock g)).put h0.length
        ((Obj.shift h0.length (match g with
          | .B => .charB ComplexRenderable.new (some 2) (some 4) (some 6) (some 8) (some 10)
              (some 12)
          | .O => .charO ComplexRenderable.new (some 2) (some 4) (some 6) (some 8)
          | .U => .charU ComplexRenderable.new (some 2) (some 4) (some 6))).mapBase f) := by
    simp only [glyphAfter, hnew, hup]
  have hlt : h0.length < (h0.relocate (glyphBlock g)).length := by
    have := Heap.get_lt (by simpa using hroot : (h0.relocate (glyphBlock g)).get h0.length = some _)
    exact this
  refine ⟨⟨hnew, by rw [hga]; exact hup⟩, ?_, ?_⟩
  · rw [hga, Heap.get_put]
    simp only [hlt, and_self, if_true]
    cases g <;>
      simp [Obj.shift, Obj.mapBase, shiftPtr, ComplexRenderable.shift, ComplexRenderable.new]
  · intro k hk
    obtain ⟨hpart, c, e, hpay⟩ := glyphBlock_parts (R := R) g k hk
    have hk2 : 2 ≤ k := by
      cases g <;> simp [Glyph.parts] at hk <;> omega
    constructor
    · rw [hga, Heap.get_put, if_neg (by omega), Heap.get_relocate, hpart]
      simp [Obj.shift, shiftPtr, ComplexRenderable.shift, ComplexRenderable.setParent]
    · refine ⟨c, e, ?_⟩
      rw [hga, Heap.get_put, if_neg (by omega), Heap.get_relocate, hpay]
      rfl

end

section
variable {R : Type} [Field R]

/-- C19: a glyph built by `CharB`, `CharO` or `CharU` on any heap and then given any
position, angles, scales, parent and texture (`f`), such that it heads a finite parent
chain.  Every part has the glyph as parent and the identity as local transform; the
hierarchical transform of every part is the glyph's own; and the glyph's `render` returns a
trace with one draw per part, each issued under that same matrix as MODEL. -/
theorem glyph_parts_follow_glyph (M : ScalarFns R) (hc0 : M.cos 0 = 1) (hs0 : M.sin 0 = 0)
    (h0 : Heap R) (g : Glyph) (f : ComplexRenderable R → ComplexRenderable R)
    (rest : List Nat) (hfuel fuel shader : Nat) (s0 : Pipeline R)
    (hch : ParentChain (glyphAfter g h0 f) (h0.length :: rest))
    (hf : rest.length + 1 < hfuel) :
    (∃ h, g.new h0 = .ok (h, h0.length) ∧ h.update h0.length f = .ok (glyphAfter g h0 f)) ∧
    (∀ p ∈ g.parts h0.length,
      (glyphAfter g h0 f).parentOf p = some (some h0.length) ∧
      localAt M (glyphAfter g h0 f) p = 1) ∧
    ∃ X trace, getHierarchicalWorldTransform M (glyphAfter g h0 f) hfuel h0.length = .ok X ∧
      (∀ p ∈ g.parts h0.length,
        getHierarchicalWorldTransform M (glyphAfter g h0 f) hfuel p = .ok X) ∧
      render M (glyphAfter g h0 f) hfuel shader (fuel + 2) h0.length = .ok trace ∧
      (drawStates s0 trace).map (fun d => d.2.model) =
        List.replicate (g.parts h0.length).length (some X) := by
  obtain ⟨hbuilt, hroot, hparts⟩ := glyphAfter_cells g h0 f
  have hlocal1 : (ComplexRenderable.new.setParent (some h0.length) :
      ComplexRenderable R).getWorldTransform M = 1 := by
    rw [getWorldTransform_pure_translation M hc0 hs0 _ rfl rfl]
    exact translate_one_zero
  have hnode : ∀ k ∈ g.parts 0, (glyphAfter g h0 f).node (h0.length + k) =
      some (ComplexRenderable.new.setParent (some h0.length)) := by
    intro k hk
    simp [Heap.node, (hparts k hk).1, Obj.base]
  have hchain : ∀ k ∈ g.parts 0,
      ParentChain (glyphAfter g h0 f) ((h0.length + k) :: h0.length :: rest) :=
    fun k hk => parentChain_cons (hnode k hk) rfl hch
  have hprod : ∀ k ∈ g.parts 0,
      chainTransform M (glyphAfter g h0 f) ((h0.length + k) :: h0.length :: rest) =
        chainTransform M (glyphAfter g h0 f) (h0.length :: rest) := by
    intro k hk
    have hl : localAt M (glyphAfter g h0 f) (h0.length + k) = 1 := by
      simp only [localAt, hnode k hk, hlocal1]
    rw [chainTransform, hl, Matrix.mul_one]
  have hrender : ∀ p ∈ (g.parts 0).map (fun k => h0.length + k),
      ∃ (tex : Nat) (tp : Int) (r : Nat),
        render M (glyphAfter g h0 f) hfuel shader (fuel + 1) p =
          .ok [ .setUniformMat4 shader .MODEL
                  (chainTransform M (glyphAfter g h0 f) (h0.length :: rest)),
                .glActiveTexture 0, .glBindTexture tex, .setUniformInt shader .TEXTURE_MAP 0,
                .setUniformInt shader .TEXTURE_PRESENT tp, .draw r ] := by
    intro p hp
    obtain ⟨k, hk, rfl⟩ := List.mem_map.1 hp
    obtain ⟨hpart, c, e, hpay⟩ := hparts k hk
    refine ⟨(ComplexRenderable.new.setParent (some h0.length) : ComplexRenderable R).getTexture,
      (if (ComplexRenderable.new.setParent (some h0.length) : ComplexRenderable R).isTextured
        then 1 else 0), h0.length + (k - 1), ?_⟩
    rw [render_part M _ hfuel shader fuel _ _ _ c e _ hpart hpay (hchain k hk)
      (by simpa using hf), hprod k hk]
  obtain ⟨t, ht, hd⟩ := renderList_same_model
    (render M (glyphAfter g h0 f) hfuel shader (fuel + 1)) shader _ _ hrender
  refine ⟨⟨_, hbuilt.1, hbuilt.2⟩, ?_, chainTransform M (glyphAfter g h0 f) (h0.length :: rest),
    ?_⟩
  · intro p hp
    rw [Glyph.parts_eq_map] at hp
    obtain ⟨k, hk, rfl⟩ := List.mem_map.1 hp
    refine ⟨by simp [Heap.parentOf, hnode k hk, ComplexRenderable.setParent], ?_⟩
    simp only [localAt, hnode k hk, hlocal1]
  · have hX := getHierarchicalWorldTransform_chain M _ h0.length rest hch hfuel (by omega)
    have hlen : (g.parts h0.length).length = (g.parts 0).length := by
      rw [Glyph.parts_eq_map, List.length_map]
    have hmembers : ∃ colour : Vec3 R,
        render M (glyphAfter g h0 f) hfuel shader (fuel + 2) h0.length =
          .ok ([ .setUniformVec3 shader .OBJECT_COLOR colour,
                .setUniformInt shader .TEXTURE_PRESENT 0 ] ++ t) := by
      rw [render]
      simp only [hroot]
      cases g <;> simp only [Glyph.parts, List.map_cons, List.map_nil, Nat.zero_add] at ht <;>
        simp only [ht] <;> exact ⟨_, rfl⟩
    obtain ⟨colour, hmembers⟩ := hmembers
    refine ⟨_, hX, ?_, hmembers, ?_⟩
    · intro p hp
      rw [Glyph.parts_eq_map] at hp
      obtain ⟨k, hk, rfl⟩ := List.mem_map.1 hp
      rw [getHierarchicalWorldTransform_chain M _ _ _ (hchain k hk) hfuel (by simpa using hf),
        hprod k hk]
    · rw [hlen]
      have := hd ((s0.step (.setUniformVec3 shader .OBJECT_COLOR colour)).step
        (.setUniformInt shader .TEXTURE_PRESENT 0))
      simpa [drawStates] using this

end

/-- C19 (witness): a `CharO` built on `plainHeap` (at address 2), then moved to (1, 2, 3),
turned, scaled and attached to the node at address 1. -/
theorem glyph_parts_follow_glyph_witness :
    (∃ h, Glyph.O.new plainHeap = .ok (h, plainHeap.length) ∧
      h.update plainHeap.length
          (fun n => (((n.setPosition ⟨1, 2, 3⟩).setAngles ⟨1, 0, 0⟩).setScales
            ⟨2, 2, 2⟩).setParent (some 1)) =
        .ok (glyphAfter Glyph.O plainHeap
          (fun n => (((n.setPosition ⟨1, 2, 3⟩).setAngles ⟨1, 0, 0⟩).setScales
            ⟨2, 2, 2⟩).setParent (some 1)))) ∧
    (∀ p ∈ Glyph.O.parts plainHeap.length,
      (glyphAfter Glyph.O plainHeap
          (fun n => (((n.setPosition ⟨1, 2, 3⟩).setAngles ⟨1, 0, 0⟩).setScales
            ⟨2, 2, 2⟩).setParent (some 1))).parentOf p = some (some plainHeap.length) ∧
      localAt ratFns (glyphAfter Glyph.O plainHeap
          (fun n => (((n.setPosition ⟨1, 2, 3⟩).setAngles ⟨1, 0, 0⟩).setScales
            ⟨2, 2, 2⟩).setParent (some 1))) p = 1) ∧
    ∃ X trace, getHierarchicalWorldTransform ratFns (glyphAfter Glyph.O plainHeap
          (fun n => (((n.setPosition ⟨1, 2, 3⟩).setAngles ⟨1, 0, 0⟩).setScales
            ⟨2, 2, 2⟩).setParent (some 1))) 3 plainHeap.length = .ok X ∧
      (∀ p ∈ Glyph.O.parts plainHeap.length,
        getHierarchicalWorldTransform ratFns (glyphAfter Glyph.O plainHeap
          (fun n => (((n.setPosition ⟨1, 2, 3⟩).setAngles ⟨1, 0, 0⟩).setScales
            ⟨2, 2, 2⟩).setParent (some 1))) 3 p = .ok X) ∧
      render ratFns (glyphAfter Glyph.O plainHeap
          (fun n => (((n.setPosition ⟨1, 2, 3⟩).setAngles ⟨1, 0, 0⟩).setScales
            ⟨2, 2, 2⟩).setParent (some 1))) 3 0 (0 + 2) plainHeap.length = .ok trace ∧
      (drawStates Pipeline.init trace).map (fun d => d.2.model) =
        List.replicate (Glyph.O.parts plainHeap.length).length (some X) :=
  glyph_parts_follow_glyph ratFns ratFns_cos_zero ratFns_sin_zero plainHeap Glyph.O
    (fun n => (((n.setPosition ⟨1, 2, 3⟩).setAngles ⟨1, 0, 0⟩).setScales
      ⟨2, 2, 2⟩).setParent (some 1)) [1] 3 0 0 Pipeline.init ⟨rfl, rfl⟩ (by decide)

end Glgine
